import Mathlib

/-!
# Visited-link notification registry (`docshell/base/BaseHistory.cpp`)

A shallow embedding of `mozilla::BaseHistory`: the table `mTrackedURIs` that maps a
URI to the links observing it, the three public entry points
`RegisterVisitedCallback`, `UnregisterVisitedCallback`, `NotifyVisited`, and the
runnable body `NotifyVisitedForDocument`.

Conventions of the embedding.

* Pointers are identities: a `Link*`, `Element*`, `Document*` or `nsIURI*` is a
  natural number, and a nullable pointer is an `Option`.
* Every entry point runs on the main thread (`MOZ_ASSERT(NS_IsMainThread())`), so
  the state is passed explicitly and there is no interleaving inside a call.
* Calls that leave the class (`StartVisitedQuery`, `CancelVisitedQueryIfPossible`,
  dispatching a runnable, `Link::SetLinkState`) are recorded, in program order, in
  a list of `Effect`s.
* A failed `MOZ_ASSERT` / `MOZ_DIAGNOSTIC_ASSERT` / `MOZ_ASSERT_UNREACHABLE` is
  recorded as an `Effect.AssertionFailure`, and execution continues with the next
  statement, which is what a build without that assertion does.
* `nsAutoScriptBlocker` (line 39) has no counterpart: no script runs in the model, and
  `Link::SetLinkState` is an effect that does not call back into the class.
-/

namespace BaseHistory

/-! ## Data model -/

/-- An `nsIURI*`, compared by the URI hash key. -/
abbrev URI := Nat

/-- A `dom::Link*`. -/
abbrev Link := Nat

/-- A `dom::Element*`. -/
abbrev Element := Nat

/-- A `dom::Document*`. -/
abbrev Document := Nat

/-- An `nsresult` code. -/
abbrev nsresult := Nat

/-- The success code `NS_OK`. -/
def NS_OK : nsresult := 0

/-- The kind of process the code runs in, as asked by `XRE_IsContentProcess` and
`XRE_IsParentProcess`. -/
inductive GeckoProcessType where
  | Default
  | Content
  | Other
  deriving DecidableEq, Repr

/-- What the code reads from outside the class: the process type and the part of
the DOM that `GetLinkDocument` walks. -/
structure Env where
  processType : GeckoProcessType
  GetElement : Link → Option Element
  OwnerDoc : Element → Document

/-- `XRE_IsContentProcess()`. -/
def XRE_IsContentProcess (env : Env) : Bool :=
  decide (env.processType = GeckoProcessType.Content)

/-- `XRE_IsParentProcess()`. -/
def XRE_IsParentProcess (env : Env) : Bool :=
  decide (env.processType = GeckoProcessType.Default)

/-- The static helper `GetLinkDocument`: the owner document of the link's element,
null when the link has no element. -/
def GetLinkDocument (env : Env) (aLink : Link) : Option Document :=
  match env.GetElement aLink with
  | some element => some (env.OwnerDoc element)
  | none => none

/-- Modelled from the spec: `struct ObservingLinks` of `BaseHistory.h`, which is not
among the sources. An Entry holds `observers`, an insertion-ordered collection
(`mLinks`), and `knownVisited`, a boolean that is initially false (`mKnownVisited`). -/
structure ObservingLinks where
  mLinks : List Link
  mKnownVisited : Bool
  deriving DecidableEq, Repr

/-- The value of `ObservingLinks{}`. -/
def ObservingLinks.empty : ObservingLinks :=
  { mLinks := [], mKnownVisited := false }

/-- The assertions of the file that can fail in the model. -/
inductive Assertion where
  /-- Line 72: "Must pass a non-null Link!". -/
  | NonNullLink
  /-- Line 77: "An empty key was kept around in our hashtable!". -/
  | EmptyKeyKept
  /-- Line 93: "We should only ever get a null Link in the parent process!". -/
  | NullLinkInParentOnly
  /-- Line 107: "Already tracking this Link object!". -/
  | AlreadyTracking
  /-- Line 131: "Trying to unregister URI that wasn't registered!". -/
  | UnregisterUnknownURI
  /-- Line 137: "Trying to unregister node that wasn't registered!". -/
  | UnregisterUnknownNode
  /-- Line 164: `MOZ_ASSERT(!links.mLinks.IsEmpty())`. -/
  | NotifyEmptyLinks
  deriving DecidableEq, Repr

/-- Where a runnable is dispatched. -/
inductive DispatchTarget where
  /-- The call `aDoc->Dispatch(TaskCategory::Other, ...)`. -/
  | Doc (aDoc : Document)
  /-- The call `NS_DispatchToMainThread(...)`. -/
  | MainThread
  deriving DecidableEq, Repr

/-- The runnable built by `DispatchNotifyVisited`: a later call of
`NotifyVisitedForDocument(aURI, aDoc)`. -/
structure Runnable where
  aURI : URI
  aDoc : Option Document
  deriving DecidableEq, Repr

/-- A call that leaves the class, or a failed assertion. -/
inductive Effect where
  | StartVisitedQuery (aURI : URI)
  | CancelVisitedQueryIfPossible (aURI : URI)
  | Dispatch (target : DispatchTarget) (runnable : Runnable)
  | SetLinkStateVisited (link : Link)
  | AssertionFailure (which : Assertion)
  deriving DecidableEq, Repr

/-! ## The hashtable `mTrackedURIs`

The code only looks keys up, adds them and removes them; it never enumerates the
table. The table is therefore a finite map read as a function. -/

/-- Modelled from the spec: the hashtable type of `mTrackedURIs` (declared in
`BaseHistory.h`, implemented by `nsBaseHashtable`, neither among the sources):
the full URI→Entry mapping. -/
abbrev Table := URI → Option ObservingLinks

/-- The table with no key. -/
def Table.empty : Table := fun _ => none

/-- Store `data` under `key`. -/
def Table.Put (t : Table) (key : URI) (data : ObservingLinks) : Table :=
  fun k => if k = key then some data else t k

/-- The calls `entry.Remove()` and `entry.OrRemove()`: drop `key`. -/
def Table.Remove (t : Table) (key : URI) : Table :=
  fun k => if k = key then none else t k

/-- Modelled from the spec: `nsBaseHashtable::LookupForAdd` (not among the sources).
"If no Entry exists for `uri`, create one": the key is added with a
default-constructed value when it is missing, and the returned flag, which is what
`if (entry)` tests, tells whether the key was there before. -/
def Table.LookupForAdd (t : Table) (key : URI) : Table × Bool :=
  match t key with
  | some _ => (t, true)
  | none => (t.Put key ObservingLinks.empty, false)

/-- The value `entry.Data()` of a key that is in the table. -/
def Table.Data (t : Table) (key : URI) : ObservingLinks :=
  (t key).getD ObservingLinks.empty

/-- The object state: the one member the code touches. -/
@[ext]
structure State where
  mTrackedURIs : Table

/-- The state of a freshly constructed object. -/
def State.init : State := { mTrackedURIs := Table.empty }

/-! ## The observer array `nsTObserverArray<Link*>` -/

/-- Modelled from the spec: `nsTObserverArray::RemoveElement` (not among the
sources): "remove `observer` from the Entry's `observers`", reporting whether it was
there. The first occurrence is the one removed. -/
def RemoveElement (mLinks : List Link) (aLink : Link) : List Link × Bool :=
  if aLink ∈ mLinks then (mLinks.erase aLink, true) else (mLinks, false)

/-! ## `DispatchNotifyVisited` (lines 23-33) -/

/-- The method `BaseHistory::DispatchNotifyVisited`: build the runnable and hand it
to the document when there is one, to the main thread otherwise. -/
def DispatchNotifyVisited (aURI : URI) (aDoc : Option Document) : Effect :=
  let runnable : Runnable := { aURI := aURI, aDoc := aDoc }
  match aDoc with
  | some doc => Effect.Dispatch (DispatchTarget.Doc doc) runnable
  | none => Effect.Dispatch DispatchTarget.MainThread runnable

/-! ## `NotifyVisitedForDocument` (lines 35-66) -/

/-- The loop of lines 52-59. `pos` is the iterator's `mPosition`: `HasMore()` is
`pos > 0`, `GetNext()` decrements it and reads the element there, `Remove()` removes
the element at that index. The result is the array after the loop and the
`SetLinkState` calls in the order they are made. -/
def notifyLoop (env : Env) (aDoc : Option Document) :
    Nat → List Link → List Link × List Effect
  | 0, mLinks => (mLinks, [])
  | pos + 1, mLinks =>
    match mLinks[pos]? with
    | none => notifyLoop env aDoc pos mLinks
    | some link =>
      if GetLinkDocument env link = aDoc then
        let r := notifyLoop env aDoc pos (mLinks.eraseIdx pos)
        (r.1, Effect.SetLinkStateVisited link :: r.2)
      else
        notifyLoop env aDoc pos mLinks

/-- The method `BaseHistory::NotifyVisitedForDocument`, the body of the runnable. -/
def NotifyVisitedForDocument (env : Env) (aURI : URI) (aDoc : Option Document)
    (self : State) : State × List Effect :=
  match self.mTrackedURIs aURI with
  | none => (self, [])
  | some links =>
    -- lines 52-59: the array is changed in place
    let r := notifyLoop env aDoc links.mLinks.length links.mLinks
    let table := self.mTrackedURIs.Put aURI { links with mLinks := r.1 }
    -- lines 63-65
    if r.1.isEmpty then
      ({ mTrackedURIs := table.Remove aURI }, r.2)
    else
      ({ mTrackedURIs := table }, r.2)

/-! ## `RegisterVisitedCallback` (lines 68-121) -/

/-- What `RegisterVisitedCallback` returns and does. -/
structure RegisterResult where
  state : State
  rv : nsresult
  effects : List Effect

/-- The method `BaseHistory::RegisterVisitedCallback`. `StartVisitedQuery` is the
pure virtual method of the class, implemented by the store: it returns `Ok` or an
error code. -/
def RegisterVisitedCallback (env : Env) (StartVisitedQuery : URI → Except nsresult Unit)
    (aURI : URI) (aLink : Option Link) (self : State) : RegisterResult :=
  -- lines 71-73
  let e72 : List Effect :=
    if XRE_IsContentProcess env ∧ aLink = none then
      [Effect.AssertionFailure Assertion.NonNullLink] else []
  -- line 76
  let added := self.mTrackedURIs.LookupForAdd aURI
  let table := added.1
  let entry := added.2
  -- lines 77-78
  let e77 : List Effect :=
    if entry = true ∧ (table.Data aURI).mLinks.isEmpty = true then
      [Effect.AssertionFailure Assertion.EmptyKeyKept] else []
  -- lines 79-87
  let query : Option (Except nsresult Unit) :=
    if entry = false then some (StartVisitedQuery aURI) else none
  let e82 : List Effect :=
    if entry = false then [Effect.StartVisitedQuery aURI] else []
  match query with
  | some (Except.error err) =>
    { state := { mTrackedURIs := table.Remove aURI }, rv := err,
      effects := e72 ++ e77 ++ e82 }
  | _ =>
    match aLink with
    | none =>
      -- lines 89-101
      let e93 : List Effect :=
        if XRE_IsParentProcess env then []
        else [Effect.AssertionFailure Assertion.NullLinkInParentOnly]
      let table97 := if entry = false then table.Remove aURI else table
      { state := { mTrackedURIs := table97 }, rv := NS_OK,
        effects := e72 ++ e77 ++ e82 ++ e93 }
    | some link =>
      -- line 103
      let links : ObservingLinks :=
        if entry = false then ObservingLinks.empty else table.Data aURI
      -- lines 107-108
      let e107 : List Effect :=
        if link ∈ links.mLinks then
          [Effect.AssertionFailure Assertion.AlreadyTracking] else []
      -- line 111
      let links111 : ObservingLinks := { links with mLinks := links.mLinks ++ [link] }
      -- lines 116-118
      let e117 : List Effect :=
        if links111.mKnownVisited then
          [DispatchNotifyVisited aURI (GetLinkDocument env link)] else []
      { state := { mTrackedURIs := table.Put aURI links111 }, rv := NS_OK,
        effects := e72 ++ e77 ++ e82 ++ e107 ++ e117 }

/-! ## `UnregisterVisitedCallback` (lines 123-146) -/

/-- The method `BaseHistory::UnregisterVisitedCallback`. -/
def UnregisterVisitedCallback (aURI : URI) (aLink : Link) (self : State) :
    State × List Effect :=
  match self.mTrackedURIs aURI with
  | none => (self, [Effect.AssertionFailure Assertion.UnregisterUnknownURI])
  | some data =>
    -- line 136: the array is changed in place
    let removed := RemoveElement data.mLinks aLink
    let table := self.mTrackedURIs.Put aURI { data with mLinks := removed.1 }
    if removed.2 = false then
      ({ mTrackedURIs := table }, [Effect.AssertionFailure Assertion.UnregisterUnknownNode])
    else if removed.1.isEmpty then
      ({ mTrackedURIs := table.Remove aURI }, [Effect.CancelVisitedQueryIfPossible aURI])
    else
      ({ mTrackedURIs := table }, [])

/-! ## `NotifyVisited` (lines 148-181) -/

/-- The loop of lines 171-180, with the iterator position `pos` as in `notifyLoop`
and the local array `seen`. -/
def dispatchLoop (env : Env) (aURI : URI) (mLinks : List Link) :
    Nat → List (Option Document) → List Effect
  | 0, _ => []
  | pos + 1, seen =>
    match mLinks[pos]? with
    | none => dispatchLoop env aURI mLinks pos seen
    | some link =>
      let doc := GetLinkDocument env link
      if doc ∈ seen then
        dispatchLoop env aURI mLinks pos seen
      else
        DispatchNotifyVisited aURI doc :: dispatchLoop env aURI mLinks pos (seen ++ [doc])

/-- The method `BaseHistory::NotifyVisited`; `aURI` may be null. -/
def NotifyVisited (env : Env) (aURI : Option URI) (self : State) : State × List Effect :=
  match aURI with
  | none => (self, [])
  | some uri =>
    match self.mTrackedURIs uri with
    | none => (self, [])
    | some links =>
      let links161 : ObservingLinks := { links with mKnownVisited := true }
      let e164 : List Effect :=
        if links161.mLinks.isEmpty then
          [Effect.AssertionFailure Assertion.NotifyEmptyLinks] else []
      ({ mTrackedURIs := self.mTrackedURIs.Put uri links161 },
        e164 ++ dispatchLoop env uri links161.mLinks links161.mLinks.length [])

/-! ## Reading a state and a list of effects -/

/-- The observers tracked for `aURI`; none when the URI has no Entry. -/
def observersOf (self : State) (aURI : URI) : List Link :=
  match self.mTrackedURIs aURI with
  | some links => links.mLinks
  | none => []

/-- The links on which `SetLinkState(eLinkState_Visited)` was called, in call order. -/
def marked : List Effect → List Link
  | [] => []
  | Effect.SetLinkStateVisited link :: es => link :: marked es
  | _ :: es => marked es

/-- The runnables handed to the dispatch facility, in dispatch order. -/
def scheduled : List Effect → List Runnable
  | [] => []
  | Effect.Dispatch _ runnable :: es => runnable :: scheduled es
  | _ :: es => scheduled es

/-- The URIs for which a lookup was started, in call order. -/
def started : List Effect → List URI
  | [] => []
  | Effect.StartVisitedQuery uri :: es => uri :: started es
  | _ :: es => started es

/-- The URIs for which a cancellation was requested, in call order. -/
def cancelled : List Effect → List URI
  | [] => []
  | Effect.CancelVisitedQueryIfPossible uri :: es => uri :: cancelled es
  | _ :: es => cancelled es

/-- The assertions that failed, in order. -/
def violations : List Effect → List Assertion
  | [] => []
  | Effect.AssertionFailure a :: es => a :: violations es
  | _ :: es => violations es

/-! ## The delivery task as the spec words it -/

/-- The delivery task in the spec's words, as a retain/partition of the observers:
the observers whose owning context is not the target stay, in their order. -/
def specRetained (env : Env) (aDoc : Option Document) (observers : List Link) : List Link :=
  observers.filter (fun link => decide (GetLinkDocument env link ≠ aDoc))

/-- The observers the spec's delivery task marks visited: those whose owning context
equals the target. -/
def specMatching (env : Env) (aDoc : Option Document) (observers : List Link) : List Link :=
  observers.filter (fun link => decide (GetLinkDocument env link = aDoc))

/-! ## The fan-out of `NotifyVisited` as the spec words it -/

/-- The owning contexts of the observers, one per observer. -/
def owningContexts (env : Env) (observers : List Link) : List (Option Document) :=
  observers.map (GetLinkDocument env)

/-- The fan-out in the spec's words: "collect the set of distinct owning contexts among
the Entry's current observers". -/
def specContexts (env : Env) (observers : List Link) : List (Option Document) :=
  (owningContexts env observers).dedup

/-- The contexts of `dispatchLoop` by recursion on the links still to visit (the array
read backward), skipping the contexts already in `seen`. -/
def fanOut (env : Env) : List Link → List (Option Document) → List (Option Document)
  | [], _ => []
  | link :: rest, seen =>
    if GetLinkDocument env link ∈ seen then fanOut env rest seen
    else GetLinkDocument env link :: fanOut env rest (seen ++ [GetLinkDocument env link])

/-! ## Sequences of calls -/

/-- A call of one of the three entry points, or a run of a dispatched runnable. The
answer of the store to a `StartVisitedQuery` is part of a `Register` call. -/
inductive Call where
  | Register (aURI : URI) (aLink : Option Link) (queryResult : Except nsresult Unit)
  | Unregister (aURI : URI) (aLink : Link)
  | NotifyVisited (aURI : Option URI)
  | Deliver (aURI : URI) (aDoc : Option Document)

/-- The state and the effects of one call. -/
def step (env : Env) (self : State) : Call → State × List Effect
  | Call.Register aURI aLink queryResult =>
    let r := RegisterVisitedCallback env (fun _ => queryResult) aURI aLink self
    (r.state, r.effects)
  | Call.Unregister aURI aLink => UnregisterVisitedCallback aURI aLink self
  | Call.NotifyVisited aURI => NotifyVisited env aURI self
  | Call.Deliver aURI aDoc => NotifyVisitedForDocument env aURI aDoc self

/-- The state and the effects, in order, of a sequence of calls. -/
def run (env : Env) : State → List Call → State × List Effect
  | self, [] => (self, [])
  | self, c :: cs =>
    let r := step env self c
    let rs := run env r.1 cs
    (rs.1, r.2 ++ rs.2)

/-- Running dispatched runnables one after the other. -/
def runRunnables (env : Env) (self : State) (runnables : List Runnable) :
    State × List Effect :=
  run env self (runnables.map (fun r => Call.Deliver r.aURI r.aDoc))

/-- A sequence of `Register` calls on one URI, each with its link argument, the store
starting every lookup it is asked for. -/
def registerCalls (aURI : URI) (links : List (Option Link)) : List Call :=
  links.map (fun aLink => Call.Register aURI aLink (Except.ok ()))

/-- The number of `Register` calls of a sequence on one URI, started on a state that
does not track the URI, that find no Entry for it: the calls without a link that come
before the first call with a link, and that first call with a link. -/
def callsFindingNoEntry : List (Option Link) → Nat
  | [] => 0
  | none :: rest => 1 + callsFindingNoEntry rest
  | some _ :: _ => 1

/-- Every Entry of the table has at least one observer. -/
def NoEmptyEntry (self : State) : Prop :=
  ∀ (uri : URI) (links : ObservingLinks), self.mTrackedURIs uri = some links →
    links.mLinks ≠ []

/-- Every Entry of the table holds each observer at most once. -/
def NoDuplicate (self : State) : Prop :=
  ∀ (uri : URI) (links : ObservingLinks), self.mTrackedURIs uri = some links →
    links.mLinks.Nodup

/-! ## Sample inputs -/

/-- An environment in which link `l` sits on element `l` and the owner document of
element `e` is `e % 2`; links `100` and above have no element. -/
def sampleEnv : Env :=
  { processType := GeckoProcessType.Default
    GetElement := fun l => if l < 100 then some l else none
    OwnerDoc := fun e => e % 2 }

/-- A state tracking URI `7` with the five observers `1, 2, 3, 4, 5`. -/
def sampleState : State :=
  { mTrackedURIs := Table.empty.Put 7 { mLinks := [1, 2, 3, 4, 5], mKnownVisited := true } }

/-- A state tracking URI `3` with the single observer `8`, the lookup still pending. -/
def singleState : State :=
  { mTrackedURIs := Table.empty.Put 3 { mLinks := [8], mKnownVisited := false } }

/-! ## Requests of a call -/

/-- The URI a call is made with; a `NotifyVisited` with a null URI has none. -/
def Call.target : Call → Option URI
  | Call.Register aURI _ _ => some aURI
  | Call.Unregister aURI _ => some aURI
  | Call.NotifyVisited aURI => aURI
  | Call.Deliver aURI _ => some aURI

/-- Whether a call is the run of a runnable rather than one of the three entry points. -/
def Call.isDeliver : Call → Bool
  | Call.Deliver _ _ => true
  | _ => false

/-- An effect that an entry point called with `uri` may have: a request to the store or
to the dispatch facility that is about `uri`, or a failed assertion; never a
`SetLinkState`. -/
def Effect.isRequestFor (uri : URI) : Effect → Prop
  | Effect.StartVisitedQuery aURI => aURI = uri
  | Effect.CancelVisitedQueryIfPossible aURI => aURI = uri
  | Effect.Dispatch _ runnable => runnable.aURI = uri
  | Effect.SetLinkStateVisited _ => False
  | Effect.AssertionFailure _ => True

/-! ## Histories -/

/-- Whether a call is `NotifyVisited(uri)`. -/
def Call.notifies (uri : URI) : Call → Bool
  | Call.NotifyVisited (some aURI) => decide (aURI = uri)
  | _ => false

/-- The flag `knownVisited` as the spec words it, kept beside the table: "initially
false, set true exactly once the store reports the URI as visited". After a call, the
flag of `uri` says whether `NotifyVisited(uri)` has been called since the Entry now
present for `uri` was created: it is false when there is no Entry or the call has just
created it, true when the call is `NotifyVisited(uri)`, and as before otherwise. -/
def notifiedSinceCreation (env : Env) (self : State) (flag : URI → Bool) (c : Call) :
    URI → Bool :=
  fun uri =>
    ((step env self c).1.mTrackedURIs uri).isSome && (self.mTrackedURIs uri).isSome &&
      (c.notifies uri || flag uri)

/-- The spec's flag after a sequence of calls. -/
def runNotified (env : Env) : State → (URI → Bool) → List Call → (URI → Bool)
  | _, flag, [] => flag
  | self, flag, c :: cs =>
    runNotified env (step env self c).1 (notifiedSinceCreation env self flag c) cs

/-- Whether every run of a runnable in a sequence of calls is the run of a runnable that
an earlier call of the sequence dispatched (or that is in `pending`) and that has not
been run since. -/
def deliversOnlyScheduled (env : Env) : State → List Runnable → List Call → Bool
  | _, _, [] => true
  | self, pending, c :: cs =>
    match c with
    | Call.Deliver aURI aDoc =>
      decide (({ aURI := aURI, aDoc := aDoc } : Runnable) ∈ pending) &&
        deliversOnlyScheduled env (step env self c).1
          (pending.erase { aURI := aURI, aDoc := aDoc }) cs
    | _ =>
      deliversOnlyScheduled env (step env self c).1
        (pending ++ scheduled (step env self c).2) cs

/-- Whether `uri` has an Entry in the state and after each call of the sequence. -/
def trackedThroughout (env : Env) (uri : URI) : State → List Call → Bool
  | self, [] => (self.mTrackedURIs uri).isSome
  | self, c :: cs =>
    (self.mTrackedURIs uri).isSome && trackedThroughout env uri (step env self c).1 cs

/-- Link `1` of document `1` is registered for URI `7`, the store reports the URI
visited, the link is unregistered, link `3` of the same document is registered. -/
def staleCalls : List Call :=
  [Call.Register 7 (some 1) (Except.ok ()), Call.NotifyVisited (some 7),
    Call.Unregister 7 1, Call.Register 7 (some 3) (Except.ok ())]


/-! ## Lemmas on the table -/

theorem Table.Put_same (t : Table) (k : URI) (v : ObservingLinks) : t.Put k v k = some v := by
  simp [Table.Put]

theorem Table.Put_other (t : Table) (k k' : URI) (v : ObservingLinks) (h : k' ≠ k) :
    t.Put k v k' = t k' := by
  simp [Table.Put, h]

theorem Table.Remove_same (t : Table) (k : URI) : t.Remove k k = none := by
  simp [Table.Remove]

theorem Table.Remove_other (t : Table) (k k' : URI) (h : k' ≠ k) :
    t.Remove k k' = t k' := by
  simp [Table.Remove, h]

theorem Table.Remove_Put (t : Table) (k : URI) (v : ObservingLinks) :
    (t.Put k v).Remove k = t.Remove k := by
  funext k'
  by_cases h : k' = k <;> simp [Table.Remove, Table.Put, h]

theorem Table.Remove_absent (t : Table) (k : URI) (h : t k = none) : t.Remove k = t := by
  funext k'
  by_cases hk : k' = k
  · subst hk; simp [Table.Remove, h]
  · simp [Table.Remove, hk]

theorem Table.Put_present (t : Table) (k : URI) (v : ObservingLinks) (h : t k = some v) :
    t.Put k v = t := by
  funext k'
  by_cases hk : k' = k
  · subst hk; simp [Table.Put, h]
  · simp [Table.Put, hk]

theorem Table.Put_Put (t : Table) (k : URI) (v w : ObservingLinks) :
    (t.Put k v).Put k w = t.Put k w := by
  funext k'
  by_cases h : k' = k <;> simp [Table.Put, h]

/-! ## Lemmas on effect lists -/

theorem marked_append (xs ys : List Effect) : marked (xs ++ ys) = marked xs ++ marked ys := by
  induction xs with
  | nil => rfl
  | cons e es ih => cases e <;> simp [marked, ih]

theorem scheduled_append (xs ys : List Effect) :
    scheduled (xs ++ ys) = scheduled xs ++ scheduled ys := by
  induction xs with
  | nil => rfl
  | cons e es ih => cases e <;> simp [scheduled, ih]

theorem started_append (xs ys : List Effect) :
    started (xs ++ ys) = started xs ++ started ys := by
  induction xs with
  | nil => rfl
  | cons e es ih => cases e <;> simp [started, ih]

theorem cancelled_append (xs ys : List Effect) :
    cancelled (xs ++ ys) = cancelled xs ++ cancelled ys := by
  induction xs with
  | nil => rfl
  | cons e es ih => cases e <;> simp [cancelled, ih]

theorem violations_append (xs ys : List Effect) :
    violations (xs ++ ys) = violations xs ++ violations ys := by
  induction xs with
  | nil => rfl
  | cons e es ih => cases e <;> simp [violations, ih]

theorem scheduled_DispatchNotifyVisited (aURI : URI) (aDoc : Option Document) :
    scheduled [DispatchNotifyVisited aURI aDoc] = [{ aURI := aURI, aDoc := aDoc }] := by
  cases aDoc <;> rfl

theorem marked_DispatchNotifyVisited (aURI : URI) (aDoc : Option Document) (es : List Effect) :
    marked (DispatchNotifyVisited aURI aDoc :: es) = marked es := by
  cases aDoc <;> rfl

/-! ## The backward loop of the delivery task is a filter -/

theorem notifyLoop_eq (env : Env) (aDoc : Option Document) :
    ∀ (pos : Nat) (mLinks : List Link), pos ≤ mLinks.length →
      notifyLoop env aDoc pos mLinks =
        (specRetained env aDoc (mLinks.take pos) ++ mLinks.drop pos,
          ((specMatching env aDoc (mLinks.take pos)).reverse).map Effect.SetLinkStateVisited) := by
  intro pos
  induction pos with
  | zero => intro mLinks _; simp [notifyLoop, specRetained, specMatching]
  | succ pos ih =>
    intro mLinks h
    have hlt : pos < mLinks.length := h
    have hget : mLinks[pos]? = some mLinks[pos] := List.getElem?_eq_getElem hlt
    have htake : mLinks.take (pos + 1) = mLinks.take pos ++ [mLinks[pos]] := by
      rw [List.take_succ, hget]; rfl
    have hdrop : mLinks.drop pos = mLinks[pos] :: mLinks.drop (pos + 1) :=
      List.drop_eq_getElem_cons hlt
    have hlen : (mLinks.take pos).length = pos := by
      rw [List.length_take]; omega
    have hR : specRetained env aDoc (mLinks.take (pos + 1)) =
        specRetained env aDoc (mLinks.take pos) ++ specRetained env aDoc [mLinks[pos]] := by
      rw [htake]; exact List.filter_append _ _
    have hM : specMatching env aDoc (mLinks.take (pos + 1)) =
        specMatching env aDoc (mLinks.take pos) ++ specMatching env aDoc [mLinks[pos]] := by
      rw [htake]; exact List.filter_append _ _
    rw [notifyLoop, hget]
    by_cases hdoc : GetLinkDocument env mLinks[pos] = aDoc
    · have herase : mLinks.eraseIdx pos = mLinks.take pos ++ mLinks.drop (pos + 1) :=
        List.eraseIdx_eq_take_drop_succ mLinks pos
      have hle : pos ≤ (mLinks.eraseIdx pos).length := by
        rw [List.length_eraseIdx]; simp [hlt]; omega
      have ht : (mLinks.eraseIdx pos).take pos = mLinks.take pos := by
        rw [herase, List.take_left' hlen]
      have hd : (mLinks.eraseIdx pos).drop pos = mLinks.drop (pos + 1) := by
        rw [herase, List.drop_left' hlen]
      have hR1 : specRetained env aDoc [mLinks[pos]] = [] := by
        simp [specRetained, hdoc]
      have hM1 : specMatching env aDoc [mLinks[pos]] = [mLinks[pos]] := by
        simp [specMatching, hdoc]
      simp only [hdoc, if_true]
      rw [ih _ hle, ht, hd, hR, hM, hR1, hM1]
      simp
    · have hR1 : specRetained env aDoc [mLinks[pos]] = [mLinks[pos]] := by
        simp [specRetained, hdoc]
      have hM1 : specMatching env aDoc [mLinks[pos]] = [] := by
        simp [specMatching, hdoc]
      simp only [hdoc, if_false]
      rw [ih _ (Nat.le_of_lt hlt), hR, hM, hR1, hM1, hdrop]
      simp

theorem marked_map_SetLinkStateVisited (ls : List Link) :
    marked (ls.map Effect.SetLinkStateVisited) = ls := by
  induction ls with
  | nil => rfl
  | cons l ls ih => simp [marked, ih]

theorem scheduled_map_SetLinkStateVisited (ls : List Link) :
    scheduled (ls.map Effect.SetLinkStateVisited) = [] := by
  induction ls with
  | nil => rfl
  | cons l ls ih => simp [scheduled, ih]

theorem specRetained_specRetained_matching (env : Env) (aDoc : Option Document)
    (ls : List Link) : specMatching env aDoc (specRetained env aDoc ls) = [] := by
  simp [specMatching, specRetained, List.filter_filter]

theorem count_specMatching (env : Env) (aDoc : Option Document) (ls : List Link) (l : Link) :
    (specMatching env aDoc ls).count l =
      if GetLinkDocument env l = aDoc then ls.count l else 0 := by
  induction ls with
  | nil => simp [specMatching]
  | cons x xs ih =>
    have hx : specMatching env aDoc (x :: xs) =
        if GetLinkDocument env x = aDoc then x :: specMatching env aDoc xs
        else specMatching env aDoc xs := by
      by_cases hd : GetLinkDocument env x = aDoc <;> simp [specMatching, hd]
    rw [hx]
    by_cases hd : GetLinkDocument env x = aDoc
    · by_cases hl : GetLinkDocument env l = aDoc
      · rw [if_pos hd, List.count_cons, List.count_cons, ih, if_pos hl, if_pos hl]
      · have hne : x ≠ l := fun e => hl (e ▸ hd)
        rw [if_pos hd, List.count_cons, ih, if_neg hl, if_neg hl]
        simp [hne]
    · by_cases hl : GetLinkDocument env l = aDoc
      · have hne : x ≠ l := fun e => hd (e ▸ hl)
        rw [if_neg hd, List.count_cons, ih, if_pos hl, if_pos hl]
        simp [hne]
      · rw [if_neg hd, ih, if_neg hl, if_neg hl]

/-- The delivery task on a tracked URI: what it calls and what it leaves. -/
theorem NotifyVisitedForDocument_tracked (env : Env) (aURI : URI) (aDoc : Option Document)
    (self : State) (links : ObservingLinks) (h : self.mTrackedURIs aURI = some links) :
    NotifyVisitedForDocument env aURI aDoc self =
      ({ mTrackedURIs :=
          if specRetained env aDoc links.mLinks = [] then self.mTrackedURIs.Remove aURI
          else self.mTrackedURIs.Put aURI
            { links with mLinks := specRetained env aDoc links.mLinks } },
        ((specMatching env aDoc links.mLinks).reverse).map Effect.SetLinkStateVisited) := by
  unfold NotifyVisitedForDocument
  rw [h]
  simp only [notifyLoop_eq env aDoc _ _ (Nat.le_refl _), List.take_length, List.drop_length,
    List.append_nil, Table.Remove_Put, List.isEmpty_eq_true]
  by_cases he : specRetained env aDoc links.mLinks = [] <;> simp [he]

/-- The delivery task on an untracked URI does nothing. -/
theorem NotifyVisitedForDocument_untracked (env : Env) (aURI : URI) (aDoc : Option Document)
    (self : State) (h : self.mTrackedURIs aURI = none) :
    NotifyVisitedForDocument env aURI aDoc self = (self, []) := by
  unfold NotifyVisitedForDocument
  rw [h]

/-- The observers of the URI after the delivery task, tracked or not. -/
theorem observersOf_NotifyVisitedForDocument (env : Env) (aURI : URI)
    (aDoc : Option Document) (self : State) :
    observersOf (NotifyVisitedForDocument env aURI aDoc self).1 aURI =
      specRetained env aDoc (observersOf self aURI) := by
  cases h : self.mTrackedURIs aURI with
  | none =>
    rw [NotifyVisitedForDocument_untracked env aURI aDoc self h]
    simp [observersOf, h, specRetained]
  | some links =>
    rw [NotifyVisitedForDocument_tracked env aURI aDoc self links h]
    by_cases he : specRetained env aDoc links.mLinks = []
    · simp [observersOf, h, he, Table.Remove_same]
    · simp [observersOf, h, he, Table.Put_same]

/-- The links the delivery task marks, tracked or not. -/
theorem marked_NotifyVisitedForDocument (env : Env) (aURI : URI)
    (aDoc : Option Document) (self : State) :
    marked (NotifyVisitedForDocument env aURI aDoc self).2 =
      (specMatching env aDoc (observersOf self aURI)).reverse := by
  cases h : self.mTrackedURIs aURI with
  | none =>
    rw [NotifyVisitedForDocument_untracked env aURI aDoc self h]
    simp [observersOf, h, specMatching, marked]
  | some links =>
    rw [NotifyVisitedForDocument_tracked env aURI aDoc self links h]
    simp only [observersOf, h]
    rw [marked_map_SetLinkStateVisited]

/-- The delivery task leaves the URI untracked exactly when it was untracked or no
observer is retained. -/
theorem NotifyVisitedForDocument_untracked_iff (env : Env) (aURI : URI)
    (aDoc : Option Document) (self : State) :
    (NotifyVisitedForDocument env aURI aDoc self).1.mTrackedURIs aURI = none ↔
      (self.mTrackedURIs aURI = none ∨ specRetained env aDoc (observersOf self aURI) = []) := by
  cases h : self.mTrackedURIs aURI with
  | none =>
    rw [NotifyVisitedForDocument_untracked env aURI aDoc self h]
    simp [h]
  | some links =>
    rw [NotifyVisitedForDocument_tracked env aURI aDoc self links h]
    by_cases he : specRetained env aDoc links.mLinks = []
    · simp [observersOf, h, he, Table.Remove_same]
    · simp [observersOf, h, he, Table.Put_same]

/-- The delivery task leaves the other URIs as they were. -/
theorem NotifyVisitedForDocument_other (env : Env) (aURI : URI)
    (aDoc : Option Document) (self : State) (u : URI) (hu : u ≠ aURI) :
    (NotifyVisitedForDocument env aURI aDoc self).1.mTrackedURIs u = self.mTrackedURIs u := by
  cases h : self.mTrackedURIs aURI with
  | none =>
    rw [NotifyVisitedForDocument_untracked env aURI aDoc self h]
  | some links =>
    rw [NotifyVisitedForDocument_tracked env aURI aDoc self links h]
    by_cases he : specRetained env aDoc links.mLinks = []
    · simp [he, Table.Remove_other _ _ _ hu]
    · simp [he, Table.Put_other _ _ _ _ hu]

/-! ## C1: the delivery task -/

/-- C1. For every state in which `aURI` has an Entry `links` and every target document
`aDoc`, `NotifyVisitedForDocument(aURI, aDoc)` does nothing but call `SetLinkState` once
for each element of the observer array whose document is `aDoc` (from the end
backward) and for no other link: a link is marked as many times as it occurs in the
array when its document is `aDoc`, hence exactly once when the array is duplicate-free,
and never otherwise. The observers left for `aURI` are the previous ones filtered on
`document ≠ aDoc`, in their previous order, and the Entry is removed when none is
left: the backward iterate-and-remove loop is the filter. -/
theorem C1_delivery_is_filter (env : Env) (aURI : URI) (aDoc : Option Document)
    (self : State) (links : ObservingLinks) (h : self.mTrackedURIs aURI = some links) :
    (NotifyVisitedForDocument env aURI aDoc self).2 =
        ((specMatching env aDoc links.mLinks).reverse).map Effect.SetLinkStateVisited ∧
      (∀ l : Link, (marked (NotifyVisitedForDocument env aURI aDoc self).2).count l =
        if GetLinkDocument env l = aDoc then links.mLinks.count l else 0) ∧
      (links.mLinks.Nodup → ∀ l ∈ links.mLinks, GetLinkDocument env l = aDoc →
        (marked (NotifyVisitedForDocument env aURI aDoc self).2).count l = 1) ∧
      observersOf (NotifyVisitedForDocument env aURI aDoc self).1 aURI =
        specRetained env aDoc links.mLinks ∧
      (NotifyVisitedForDocument env aURI aDoc self).1.mTrackedURIs =
        (if specRetained env aDoc links.mLinks = [] then self.mTrackedURIs.Remove aURI
         else self.mTrackedURIs.Put aURI
           { links with mLinks := specRetained env aDoc links.mLinks }) := by
  have hobs : observersOf self aURI = links.mLinks := by simp [observersOf, h]
  have hcount : ∀ l : Link, (marked (NotifyVisitedForDocument env aURI aDoc self).2).count l =
      if GetLinkDocument env l = aDoc then links.mLinks.count l else 0 := by
    intro l
    rw [marked_NotifyVisitedForDocument, hobs, List.count_reverse, count_specMatching]
  refine ⟨?_, hcount, ?_, ?_, ?_⟩
  · rw [NotifyVisitedForDocument_tracked env aURI aDoc self links h]
  · intro hnd l hl hdoc
    rw [hcount l, if_pos hdoc]
    exact List.count_eq_one_of_mem hnd hl
  · rw [observersOf_NotifyVisitedForDocument, hobs]
  · rw [NotifyVisitedForDocument_tracked env aURI aDoc self links h]

/-- C1 at five observers of which three (`1, 3, 5`) belong to document `1`. -/
theorem C1_delivery_is_filter_witness :
    (NotifyVisitedForDocument sampleEnv 7 (some 1) sampleState).2 =
        [Effect.SetLinkStateVisited 5, Effect.SetLinkStateVisited 3,
          Effect.SetLinkStateVisited 1] ∧
      observersOf (NotifyVisitedForDocument sampleEnv 7 (some 1) sampleState).1 7 = [2, 4] := by
  have h := C1_delivery_is_filter sampleEnv 7 (some 1) sampleState
    { mLinks := [1, 2, 3, 4, 5], mKnownVisited := true } (by decide)
  refine ⟨?_, ?_⟩
  · rw [h.1]; decide
  · rw [h.2.2.2.1]; decide

/-! ## C2: the fan-out of `NotifyVisited` -/

theorem dispatchLoop_eq (env : Env) (aURI : URI) (mLinks : List Link) :
    ∀ (pos : Nat) (seen : List (Option Document)), pos ≤ mLinks.length →
      dispatchLoop env aURI mLinks pos seen =
        (fanOut env (mLinks.take pos).reverse seen).map (DispatchNotifyVisited aURI) := by
  intro pos
  induction pos with
  | zero => intro seen _; simp [dispatchLoop, fanOut]
  | succ pos ih =>
    intro seen h
    have hlt : pos < mLinks.length := h
    have hget : mLinks[pos]? = some mLinks[pos] := List.getElem?_eq_getElem hlt
    have htake : (mLinks.take (pos + 1)).reverse = mLinks[pos] :: (mLinks.take pos).reverse := by
      rw [List.take_succ, hget]; simp
    rw [dispatchLoop, hget, htake]
    by_cases hs : GetLinkDocument env mLinks[pos] ∈ seen
    · simp only [hs, if_true, fanOut]
      exact ih seen (Nat.le_of_lt hlt)
    · simp only [hs, if_false, fanOut, List.map_cons]
      rw [ih _ (Nat.le_of_lt hlt)]

theorem mem_fanOut (env : Env) :
    ∀ (ls : List Link) (seen : List (Option Document)) (d : Option Document),
      d ∈ fanOut env ls seen ↔ d ∈ owningContexts env ls ∧ d ∉ seen := by
  intro ls
  induction ls with
  | nil => intro seen d; simp [fanOut, owningContexts]
  | cons x xs ih =>
    intro seen d
    by_cases hs : GetLinkDocument env x ∈ seen
    · simp only [fanOut, hs, if_true, ih, owningContexts, List.map_cons, List.mem_cons]
      constructor
      · rintro ⟨h1, h2⟩; exact ⟨Or.inr h1, h2⟩
      · rintro ⟨h1 | h1, h2⟩
        · exact absurd (h1 ▸ hs) h2
        · exact ⟨h1, h2⟩
    · simp only [fanOut, hs, if_false, ih, owningContexts, List.map_cons, List.mem_cons,
        List.mem_append, List.mem_singleton, not_or]
      constructor
      · rintro (h1 | ⟨h1, h2, _⟩)
        · exact ⟨Or.inl h1, h1 ▸ hs⟩
        · exact ⟨Or.inr h1, h2⟩
      · rintro ⟨h1 | h1, h2⟩
        · exact Or.inl h1
        · by_cases hd : d = GetLinkDocument env x
          · exact Or.inl hd
          · exact Or.inr ⟨h1, h2, by simpa using hd⟩

theorem nodup_fanOut (env : Env) :
    ∀ (ls : List Link) (seen : List (Option Document)), (fanOut env ls seen).Nodup := by
  intro ls
  induction ls with
  | nil => intro seen; simp [fanOut]
  | cons x xs ih =>
    intro seen
    by_cases hs : GetLinkDocument env x ∈ seen
    · simp only [fanOut, hs, if_true]; exact ih seen
    · simp only [fanOut, hs, if_false, List.nodup_cons]
      refine ⟨?_, ih _⟩
      rw [mem_fanOut]
      simp

theorem scheduled_map_DispatchNotifyVisited (aURI : URI) (ds : List (Option Document)) :
    scheduled (ds.map (DispatchNotifyVisited aURI)) =
      ds.map (fun d => ({ aURI := aURI, aDoc := d } : Runnable)) := by
  induction ds with
  | nil => rfl
  | cons d ds ih =>
    cases d <;> simp [DispatchNotifyVisited, scheduled, ih]

theorem marked_map_DispatchNotifyVisited (aURI : URI) (ds : List (Option Document)) :
    marked (ds.map (DispatchNotifyVisited aURI)) = [] := by
  induction ds with
  | nil => rfl
  | cons d ds ih =>
    cases d <;> simp [DispatchNotifyVisited, marked, ih]

/-- What `NotifyVisited` does on a tracked URI. -/
theorem NotifyVisited_tracked (env : Env) (uri : URI) (self : State) (links : ObservingLinks)
    (h : self.mTrackedURIs uri = some links) :
    NotifyVisited env (some uri) self =
      ({ mTrackedURIs := self.mTrackedURIs.Put uri { links with mKnownVisited := true } },
        (if links.mLinks.isEmpty then
            [Effect.AssertionFailure Assertion.NotifyEmptyLinks] else []) ++
          (fanOut env links.mLinks.reverse []).map (DispatchNotifyVisited uri)) := by
  unfold NotifyVisited
  simp only [h]
  rw [dispatchLoop_eq env uri links.mLinks _ _ (Nat.le_refl _), List.take_length]

/-- The runnables `NotifyVisited` dispatches on a tracked URI. -/
theorem scheduled_NotifyVisited (env : Env) (uri : URI) (self : State)
    (links : ObservingLinks) (h : self.mTrackedURIs uri = some links) :
    scheduled (NotifyVisited env (some uri) self).2 =
      (fanOut env links.mLinks.reverse []).map
        (fun d => ({ aURI := uri, aDoc := d } : Runnable)) := by
  rw [NotifyVisited_tracked env uri self links h]
  simp only [scheduled_append, scheduled_map_DispatchNotifyVisited]
  by_cases he : links.mLinks.isEmpty = true <;> simp [he, scheduled]

/-- C2. For every state in which `uri` has an Entry `links`, `NotifyVisited(uri)`
dispatches one runnable per distinct owning document of the observers: every
dispatched runnable is for `uri`, no document (the null document counting as one)
occurs twice among them, a document occurs among them exactly when it is the owning
document of some observer, and their number is the number of distinct owning
documents, not the number of observers. -/
theorem C2_one_delivery_per_context (env : Env) (uri : URI) (self : State)
    (links : ObservingLinks) (h : self.mTrackedURIs uri = some links) :
    (∀ r ∈ scheduled (NotifyVisited env (some uri) self).2, r.aURI = uri) ∧
      ((scheduled (NotifyVisited env (some uri) self).2).map Runnable.aDoc).Nodup ∧
      (∀ d : Option Document,
        d ∈ (scheduled (NotifyVisited env (some uri) self).2).map Runnable.aDoc ↔
          ∃ link ∈ links.mLinks, GetLinkDocument env link = d) ∧
      ((scheduled (NotifyVisited env (some uri) self).2).map Runnable.aDoc).Perm
        (specContexts env links.mLinks) ∧
      (scheduled (NotifyVisited env (some uri) self).2).length =
        (specContexts env links.mLinks).length := by
  have hdocs : (scheduled (NotifyVisited env (some uri) self).2).map Runnable.aDoc =
      fanOut env links.mLinks.reverse [] := by
    rw [scheduled_NotifyVisited env uri self links h, List.map_map]
    exact List.map_id _
  have hmem : ∀ d : Option Document,
      d ∈ fanOut env links.mLinks.reverse [] ↔ d ∈ owningContexts env links.mLinks := by
    intro d
    rw [mem_fanOut]
    simp [owningContexts]
  have hperm : (fanOut env links.mLinks.reverse []).Perm (specContexts env links.mLinks) := by
    unfold specContexts
    rw [List.perm_ext_iff_of_nodup (nodup_fanOut env _ _) (List.nodup_dedup _)]
    intro d
    rw [hmem, List.mem_dedup]
  refine ⟨?_, ?_, ?_, ?_, ?_⟩
  · intro r hr
    rw [scheduled_NotifyVisited env uri self links h, List.mem_map] at hr
    obtain ⟨d, _, rfl⟩ := hr
    rfl
  · rw [hdocs]; exact nodup_fanOut env _ _
  · intro d
    rw [hdocs, hmem]
    simp [owningContexts]
  · rw [hdocs]; exact hperm
  · have hl := hperm.length_eq
    rw [← hdocs, List.length_map] at hl
    exact hl

/-- C2 at three observers of one document and two of another: two runnables. -/
theorem C2_one_delivery_per_context_witness :
    sampleState.mTrackedURIs 7 = some { mLinks := [1, 2, 3, 4, 5], mKnownVisited := true } ∧
      (scheduled (NotifyVisited sampleEnv (some 7) sampleState).2).length = 2 := by
  refine ⟨by decide, ?_⟩
  rw [(C2_one_delivery_per_context sampleEnv 7 sampleState
    { mLinks := [1, 2, 3, 4, 5], mKnownVisited := true } (by decide)).2.2.2.2]
  decide

/-! ## `RegisterVisitedCallback` case by case -/

theorem Register_untracked_error (env : Env) (q : URI → Except nsresult Unit) (aURI : URI)
    (aLink : Option Link) (self : State) (err : nsresult)
    (h : self.mTrackedURIs aURI = none) (hq : q aURI = Except.error err) :
    (RegisterVisitedCallback env q aURI aLink self).state = self ∧
      (RegisterVisitedCallback env q aURI aLink self).rv = err ∧
      (RegisterVisitedCallback env q aURI aLink self).effects =
        (if XRE_IsContentProcess env ∧ aLink = none then
          [Effect.AssertionFailure Assertion.NonNullLink] else []) ++
          [Effect.StartVisitedQuery aURI] := by
  unfold RegisterVisitedCallback
  simp only [Table.LookupForAdd, h, hq]
  refine ⟨?_, ?_, ?_⟩
  · apply State.ext
    simp [Table.Remove_Put, Table.Remove_absent _ _ h]
  · simp
  · simp

theorem Register_untracked_ok_null (env : Env) (q : URI → Except nsresult Unit) (aURI : URI)
    (self : State) (h : self.mTrackedURIs aURI = none) (hq : q aURI = Except.ok ()) :
    (RegisterVisitedCallback env q aURI none self).state = self ∧
      (RegisterVisitedCallback env q aURI none self).rv = NS_OK ∧
      (RegisterVisitedCallback env q aURI none self).effects =
        (if XRE_IsContentProcess env then
          [Effect.AssertionFailure Assertion.NonNullLink] else []) ++
          [Effect.StartVisitedQuery aURI] ++
          (if XRE_IsParentProcess env then []
            else [Effect.AssertionFailure Assertion.NullLinkInParentOnly]) := by
  unfold RegisterVisitedCallback
  simp only [Table.LookupForAdd, h, hq]
  refine ⟨?_, ?_, ?_⟩
  · apply State.ext
    simp [Table.Remove_Put, Table.Remove_absent _ _ h]
  · simp
  · simp

theorem Register_untracked_ok_link (env : Env) (q : URI → Except nsresult Unit) (aURI : URI)
    (link : Link) (self : State) (h : self.mTrackedURIs aURI = none)
    (hq : q aURI = Except.ok ()) :
    (RegisterVisitedCallback env q aURI (some link) self).state =
        { mTrackedURIs := self.mTrackedURIs.Put aURI
            { mLinks := [link], mKnownVisited := false } } ∧
      (RegisterVisitedCallback env q aURI (some link) self).rv = NS_OK ∧
      (RegisterVisitedCallback env q aURI (some link) self).effects =
        [Effect.StartVisitedQuery aURI] := by
  unfold RegisterVisitedCallback
  simp only [Table.LookupForAdd, h, hq]
  refine ⟨?_, ?_, ?_⟩
  · apply State.ext
    simp [Table.Put_Put, ObservingLinks.empty]
  · simp
  · simp [ObservingLinks.empty]

theorem Register_tracked_null (env : Env) (q : URI → Except nsresult Unit) (aURI : URI)
    (self : State) (links : ObservingLinks) (h : self.mTrackedURIs aURI = some links) :
    (RegisterVisitedCallback env q aURI none self).state = self ∧
      (RegisterVisitedCallback env q aURI none self).rv = NS_OK ∧
      (RegisterVisitedCallback env q aURI none self).effects =
        (if XRE_IsContentProcess env then
          [Effect.AssertionFailure Assertion.NonNullLink] else []) ++
          (if links.mLinks.isEmpty then
            [Effect.AssertionFailure Assertion.EmptyKeyKept] else []) ++
          (if XRE_IsParentProcess env then []
            else [Effect.AssertionFailure Assertion.NullLinkInParentOnly]) := by
  unfold RegisterVisitedCallback
  simp only [Table.LookupForAdd, h]
  refine ⟨?_, ?_, ?_⟩
  · simp
  · simp
  · simp [Table.Data, h]

theorem Register_tracked_link (env : Env) (q : URI → Except nsresult Unit) (aURI : URI)
    (link : Link) (self : State) (links : ObservingLinks)
    (h : self.mTrackedURIs aURI = some links) :
    (RegisterVisitedCallback env q aURI (some link) self).state =
        { mTrackedURIs := self.mTrackedURIs.Put aURI
            { links with mLinks := links.mLinks ++ [link] } } ∧
      (RegisterVisitedCallback env q aURI (some link) self).rv = NS_OK ∧
      (RegisterVisitedCallback env q aURI (some link) self).effects =
        (if links.mLinks.isEmpty then
          [Effect.AssertionFailure Assertion.EmptyKeyKept] else []) ++
          (if link ∈ links.mLinks then
            [Effect.AssertionFailure Assertion.AlreadyTracking] else []) ++
          (if links.mKnownVisited then
            [DispatchNotifyVisited aURI (GetLinkDocument env link)] else []) := by
  unfold RegisterVisitedCallback
  simp only [Table.LookupForAdd, h]
  refine ⟨?_, ?_, ?_⟩
  · simp [Table.Data, h]
  · simp
  · simp [Table.Data, h]

theorem started_DispatchNotifyVisited (aURI : URI) (aDoc : Option Document) :
    started [DispatchNotifyVisited aURI aDoc] = [] := by
  cases aDoc <;> rfl

theorem cancelled_DispatchNotifyVisited (aURI : URI) (aDoc : Option Document) :
    cancelled [DispatchNotifyVisited aURI aDoc] = [] := by
  cases aDoc <;> rfl

/-- A `Register` on a tracked URI starts no lookup and keeps the URI tracked. -/
theorem Register_tracked_started (env : Env) (q : URI → Except nsresult Unit) (aURI : URI)
    (aLink : Option Link) (self : State) (h : self.mTrackedURIs aURI ≠ none) :
    started (RegisterVisitedCallback env q aURI aLink self).effects = [] ∧
      (RegisterVisitedCallback env q aURI aLink self).state.mTrackedURIs aURI ≠ none := by
  obtain ⟨links, hl⟩ := Option.ne_none_iff_exists'.mp h
  cases aLink with
  | none =>
    obtain ⟨hs, _, he⟩ := Register_tracked_null env q aURI self links hl
    rw [hs, he]
    refine ⟨?_, h⟩
    simp only [started_append]
    split_ifs <;> simp [started]
  | some link =>
    obtain ⟨hs, _, he⟩ := Register_tracked_link env q aURI link self links hl
    rw [hs, he]
    refine ⟨?_, by simp [Table.Put_same]⟩
    simp only [started_append]
    split_ifs <;> simp [started, started_DispatchNotifyVisited]

/-- A `Register` on an untracked URI asks the store for one lookup of that URI. -/
theorem Register_untracked_started (env : Env) (q : URI → Except nsresult Unit) (aURI : URI)
    (aLink : Option Link) (self : State) (h : self.mTrackedURIs aURI = none) :
    started (RegisterVisitedCallback env q aURI aLink self).effects = [aURI] := by
  cases hq : q aURI with
  | error err =>
    rw [(Register_untracked_error env q aURI aLink self err h hq).2.2, started_append]
    split_ifs <;> simp [started]
  | ok u =>
    cases u
    cases aLink with
    | none =>
      rw [(Register_untracked_ok_null env q aURI self h hq).2.2]
      simp only [started_append]
      split_ifs <;> simp [started]
    | some link =>
      rw [(Register_untracked_ok_link env q aURI link self h hq).2.2]
      rfl

/-! ## C3: lookups started by a sequence of `Register` calls -/

theorem run_registerCalls_tracked (env : Env) (aURI : URI) :
    ∀ (calls : List (Option Link)) (self : State), self.mTrackedURIs aURI ≠ none →
      started (run env self (registerCalls aURI calls)).2 = [] := by
  intro calls
  induction calls with
  | nil => intro self _; rfl
  | cons c cs ih =>
    intro self h
    have hr := Register_tracked_started env (fun _ => Except.ok ()) aURI c self h
    simp only [registerCalls, List.map_cons, run, step, started_append]
    rw [hr.1]
    exact ih _ hr.2

theorem run_registerCalls_untracked (env : Env) (aURI : URI) :
    ∀ (calls : List (Option Link)) (self : State), self.mTrackedURIs aURI = none →
      started (run env self (registerCalls aURI calls)).2 =
        List.replicate (callsFindingNoEntry calls) aURI := by
  intro calls
  induction calls with
  | nil => intro self _; rfl
  | cons c cs ih =>
    intro self h
    have hs := Register_untracked_started env (fun _ => Except.ok ()) aURI c self h
    simp only [registerCalls, List.map_cons, run, step, started_append]
    rw [hs]
    cases c with
    | none =>
      have hst := (Register_untracked_ok_null env (fun _ => Except.ok ()) aURI self h rfl).1
      rw [hst]
      have := ih self h
      simp only [registerCalls] at this
      rw [this, callsFindingNoEntry, Nat.add_comm, List.replicate_succ]
      rfl
    | some link =>
      have hst := (Register_untracked_ok_link env (fun _ => Except.ok ()) aURI link self h rfl).1
      have := run_registerCalls_tracked env aURI cs
        (RegisterVisitedCallback env (fun _ => Except.ok ()) aURI (some link) self).state
        (by rw [hst]; simp [Table.Put_same])
      simp only [registerCalls] at this
      rw [this]
      rfl

/-- C3, as stated, fails: two `Register` calls without a link on the same URI, from the
empty table and with the store starting every lookup, ask the store for two lookups of
that URI. -/
theorem C3_two_lookups_counterexample :
    started (run sampleEnv State.init (registerCalls 7 [none, none])).2 = [7, 7] ∧
      ¬ ((started (run sampleEnv State.init (registerCalls 7 [none, none])).2).length ≤ 1) := by
  decide

/-- C3, amended. For a sequence of `Register` calls on one URI from the empty table, the
store starting every lookup and nothing else being called in between, the store is asked
for one lookup of that URI by each call that finds no Entry, and by no other call: a call
with a link creates the Entry, which every later call reuses, and a call without a link
on an untracked URI leaves no Entry. So the store is asked at most once when the first
call carries a link, and once more for each call without a link that comes before the
first call with a link. -/
theorem C3_lookups_per_missing_entry (env : Env) (aURI : URI) (calls : List (Option Link)) :
    started (run env State.init (registerCalls aURI calls)).2 =
        List.replicate (callsFindingNoEntry calls) aURI ∧
      (calls.head? ≠ some none →
        (started (run env State.init (registerCalls aURI calls)).2).length ≤ 1) := by
  have h := run_registerCalls_untracked env aURI calls State.init rfl
  refine ⟨h, ?_⟩
  intro hhead
  rw [h, List.length_replicate]
  cases calls with
  | nil => simp [callsFindingNoEntry]
  | cons c cs =>
    cases c with
    | none => simp at hhead
    | some link => simp [callsFindingNoEntry]

/-- C3, amended, at a call with a link followed by a call without and another with. -/
theorem C3_lookups_per_missing_entry_witness :
    [some 1, none, some 2].head? ≠ some (none : Option Link) ∧
      (started (run sampleEnv State.init (registerCalls 7 [some 1, none, some 2])).2).length
        ≤ 1 :=
  ⟨by decide, (C3_lookups_per_missing_entry sampleEnv 7 [some 1, none, some 2]).2 (by decide)⟩

/-! ## C4: a lookup that fails to start -/

/-- C4. When `aURI` has no Entry and the store fails to start the lookup with `err`,
`RegisterVisitedCallback` returns `err`, the state after the call is the state before
(no Entry for `aURI`, every other Entry as it was, the link in no observer array it was
not in), no runnable is dispatched and no link is marked. -/
theorem C4_failed_lookup_is_rolled_back (env : Env) (q : URI → Except nsresult Unit)
    (aURI : URI) (aLink : Option Link) (self : State) (err : nsresult)
    (h : self.mTrackedURIs aURI = none) (hq : q aURI = Except.error err) :
    (RegisterVisitedCallback env q aURI aLink self).rv = err ∧
      (RegisterVisitedCallback env q aURI aLink self).state = self ∧
      (RegisterVisitedCallback env q aURI aLink self).state.mTrackedURIs aURI = none ∧
      (∀ u : URI, observersOf (RegisterVisitedCallback env q aURI aLink self).state u =
        observersOf self u) ∧
      scheduled (RegisterVisitedCallback env q aURI aLink self).effects = [] ∧
      marked (RegisterVisitedCallback env q aURI aLink self).effects = [] := by
  obtain ⟨hs, hrv, he⟩ := Register_untracked_error env q aURI aLink self err h hq
  refine ⟨hrv, hs, by rw [hs]; exact h, fun u => by rw [hs], ?_, ?_⟩
  · rw [he, scheduled_append]
    split_ifs <;> simp [scheduled]
  · rw [he, marked_append]
    split_ifs <;> simp [marked]

/-- C4 at a link registered on an untracked URI, the store answering with error `5`. -/
theorem C4_failed_lookup_is_rolled_back_witness :
    (RegisterVisitedCallback sampleEnv (fun _ => Except.error 5) 9 (some 1) sampleState).rv = 5 ∧
      (RegisterVisitedCallback sampleEnv (fun _ => Except.error 5) 9 (some 1) sampleState).state =
        sampleState :=
  have h := C4_failed_lookup_is_rolled_back sampleEnv (fun _ => Except.error 5) 9 (some 1)
    sampleState 5 (by decide) rfl
  ⟨h.1, h.2.1⟩

/-! ## C5: registering on a URI already known visited -/

/-- C5. Registering a link on a URI that has an Entry marks no link during the call;
when the Entry has `mKnownVisited = true` the call dispatches exactly one runnable, for
the pair of the URI and the link's owning document, and when that runnable is run the
link is marked visited and is no longer among the observers of the URI; when the Entry
has `mKnownVisited = false` the call dispatches nothing. This holds in particular for a
link that is not yet an observer of the URI. -/
theorem C5_register_on_known_visited (env : Env) (q : URI → Except nsresult Unit)
    (aURI : URI) (link : Link) (self : State) (links : ObservingLinks)
    (h : self.mTrackedURIs aURI = some links) :
    marked (RegisterVisitedCallback env q aURI (some link) self).effects = [] ∧
      (links.mKnownVisited = true →
        scheduled (RegisterVisitedCallback env q aURI (some link) self).effects =
            [{ aURI := aURI, aDoc := GetLinkDocument env link }] ∧
          link ∈ marked (NotifyVisitedForDocument env aURI (GetLinkDocument env link)
            (RegisterVisitedCallback env q aURI (some link) self).state).2 ∧
          link ∉ observersOf (NotifyVisitedForDocument env aURI (GetLinkDocument env link)
            (RegisterVisitedCallback env q aURI (some link) self).state).1 aURI) ∧
      (links.mKnownVisited = false →
        scheduled (RegisterVisitedCallback env q aURI (some link) self).effects = []) := by
  obtain ⟨hs, _, he⟩ := Register_tracked_link env q aURI link self links h
  have hobs : observersOf (RegisterVisitedCallback env q aURI (some link) self).state aURI =
      links.mLinks ++ [link] := by
    rw [hs]; simp [observersOf, Table.Put_same]
  refine ⟨?_, ?_, ?_⟩
  · rw [he]
    simp only [marked_append]
    split_ifs <;> simp [marked, marked_DispatchNotifyVisited]
  · intro hk
    refine ⟨?_, ?_, ?_⟩
    · rw [he, hk]
      simp only [scheduled_append, if_true, scheduled_DispatchNotifyVisited]
      split_ifs <;> simp [scheduled]
    · rw [marked_NotifyVisitedForDocument, hobs]
      simp [specMatching]
    · rw [observersOf_NotifyVisitedForDocument, hobs]
      simp [specRetained]
  · intro hk
    rw [he, hk]
    simp only [scheduled_append, Bool.false_eq_true, if_false]
    split_ifs <;> simp [scheduled]

/-- C5 at link `6` registered on the sample state, whose Entry for URI `7` is known
visited. -/
theorem C5_register_on_known_visited_witness :
    scheduled (RegisterVisitedCallback sampleEnv (fun _ => Except.ok ()) 7 (some 6)
        sampleState).effects = [{ aURI := 7, aDoc := GetLinkDocument sampleEnv 6 }] ∧
      6 ∈ marked (NotifyVisitedForDocument sampleEnv 7 (GetLinkDocument sampleEnv 6)
        (RegisterVisitedCallback sampleEnv (fun _ => Except.ok ()) 7 (some 6)
          sampleState).state).2 :=
  have h := (C5_register_on_known_visited sampleEnv (fun _ => Except.ok ()) 7 6 sampleState
    { mLinks := [1, 2, 3, 4, 5], mKnownVisited := true } (by decide)).2.1 rfl
  ⟨h.1, h.2.1⟩

/-! ## `UnregisterVisitedCallback` case by case -/

theorem Unregister_untracked (aURI : URI) (aLink : Link) (self : State)
    (h : self.mTrackedURIs aURI = none) :
    UnregisterVisitedCallback aURI aLink self =
      (self, [Effect.AssertionFailure Assertion.UnregisterUnknownURI]) := by
  unfold UnregisterVisitedCallback
  rw [h]

theorem Unregister_unknown_link (aURI : URI) (aLink : Link) (self : State)
    (links : ObservingLinks) (h : self.mTrackedURIs aURI = some links)
    (hl : aLink ∉ links.mLinks) :
    UnregisterVisitedCallback aURI aLink self =
      (self, [Effect.AssertionFailure Assertion.UnregisterUnknownNode]) := by
  unfold UnregisterVisitedCallback
  simp only [h, RemoveElement, hl, if_false, if_true]
  have : self.mTrackedURIs.Put aURI { links with mLinks := links.mLinks } = self.mTrackedURIs :=
    Table.Put_present _ _ _ h
  rw [this]

theorem Unregister_last (aURI : URI) (aLink : Link) (self : State)
    (links : ObservingLinks) (h : self.mTrackedURIs aURI = some links)
    (hl : aLink ∈ links.mLinks) (he : links.mLinks.erase aLink = []) :
    UnregisterVisitedCallback aURI aLink self =
      ({ mTrackedURIs := self.mTrackedURIs.Remove aURI },
        [Effect.CancelVisitedQueryIfPossible aURI]) := by
  unfold UnregisterVisitedCallback
  simp [h, RemoveElement, hl, he, Table.Remove_Put]

theorem Unregister_not_last (aURI : URI) (aLink : Link) (self : State)
    (links : ObservingLinks) (h : self.mTrackedURIs aURI = some links)
    (hl : aLink ∈ links.mLinks) (he : links.mLinks.erase aLink ≠ []) :
    UnregisterVisitedCallback aURI aLink self =
      ({ mTrackedURIs := self.mTrackedURIs.Put aURI
          { links with mLinks := links.mLinks.erase aLink } }, []) := by
  unfold UnregisterVisitedCallback
  simp [h, RemoveElement, hl, he]

/-! ## C6: unregistering the last observer -/

/-- C6. When `aLink` is the only observer of `aURI`, `UnregisterVisitedCallback` removes
the Entry of `aURI` and asks once for the cancellation of the lookup of `aURI`, and of
no other; a `RegisterVisitedCallback` for `aURI` that follows asks the store for exactly
one lookup, of `aURI`, and, when the store starts it and the call carries a link, leaves
a new Entry that holds just that link with `mKnownVisited = false`. -/
theorem C6_unregister_last_then_register (env : Env) (q : URI → Except nsresult Unit)
    (aURI : URI) (aLink : Link) (newLink : Link) (self : State) (links : ObservingLinks)
    (h : self.mTrackedURIs aURI = some links) (hl : links.mLinks = [aLink]) :
    (UnregisterVisitedCallback aURI aLink self).1.mTrackedURIs aURI = none ∧
      (UnregisterVisitedCallback aURI aLink self).2 =
        [Effect.CancelVisitedQueryIfPossible aURI] ∧
      cancelled (UnregisterVisitedCallback aURI aLink self).2 = [aURI] ∧
      started (RegisterVisitedCallback env q aURI (some newLink)
        (UnregisterVisitedCallback aURI aLink self).1).effects = [aURI] ∧
      (q aURI = Except.ok () →
        (RegisterVisitedCallback env q aURI (some newLink)
          (UnregisterVisitedCallback aURI aLink self).1).state.mTrackedURIs aURI =
            some { mLinks := [newLink], mKnownVisited := false }) := by
  have hu := Unregister_last aURI aLink self links h (by simp [hl]) (by simp [hl])
  have hnone : (UnregisterVisitedCallback aURI aLink self).1.mTrackedURIs aURI = none := by
    rw [hu]; exact Table.Remove_same _ _
  refine ⟨hnone, by rw [hu], by rw [hu]; rfl, ?_, ?_⟩
  · exact Register_untracked_started env q aURI (some newLink) _ hnone
  · intro hq
    rw [(Register_untracked_ok_link env q aURI newLink _ hnone hq).1]
    exact Table.Put_same _ _ _

/-- C6 at the single observer `8` of URI `3`, then link `9` registered. -/
theorem C6_unregister_last_then_register_witness :
    (UnregisterVisitedCallback 3 8 singleState).1.mTrackedURIs 3 = none ∧
      started (RegisterVisitedCallback sampleEnv (fun _ => Except.ok ()) 3 (some 9)
        (UnregisterVisitedCallback 3 8 singleState).1).effects = [3] :=
  have h := C6_unregister_last_then_register sampleEnv (fun _ => Except.ok ()) 3 8 9
    singleState { mLinks := [8], mKnownVisited := false } (by decide) rfl
  ⟨h.1, h.2.2.2.1⟩

/-! ## Predicates on every Entry -/

theorem entries_Put (P : ObservingLinks → Prop) (t : Table) (k : URI) (v : ObservingLinks)
    (h : ∀ u l, t u = some l → P l) (hv : P v) :
    ∀ u l, t.Put k v u = some l → P l := by
  intro u l hu
  by_cases hk : u = k
  · subst hk
    rw [Table.Put_same] at hu
    cases hu
    exact hv
  · rw [Table.Put_other _ _ _ _ hk] at hu
    exact h u l hu

theorem entries_Remove (P : ObservingLinks → Prop) (t : Table) (k : URI)
    (h : ∀ u l, t u = some l → P l) :
    ∀ u l, t.Remove k u = some l → P l := by
  intro u l hu
  by_cases hk : u = k
  · subst hk
    rw [Table.Remove_same] at hu
    cases hu
  · rw [Table.Remove_other _ _ _ hk] at hu
    exact h u l hu

/-- The state after a `RegisterVisitedCallback`, in the five cases. -/
theorem Register_state_cases (env : Env) (q : URI → Except nsresult Unit) (aURI : URI)
    (aLink : Option Link) (self : State) :
    (RegisterVisitedCallback env q aURI aLink self).state = self ∨
      (∃ link, aLink = some link ∧ self.mTrackedURIs aURI = none ∧
        (RegisterVisitedCallback env q aURI aLink self).state =
          { mTrackedURIs := self.mTrackedURIs.Put aURI
              { mLinks := [link], mKnownVisited := false } }) ∨
      (∃ link links, aLink = some link ∧ self.mTrackedURIs aURI = some links ∧
        (RegisterVisitedCallback env q aURI aLink self).state =
          { mTrackedURIs := self.mTrackedURIs.Put aURI
              { links with mLinks := links.mLinks ++ [link] } }) := by
  cases h : self.mTrackedURIs aURI with
  | none =>
    cases hq : q aURI with
    | error err => exact Or.inl (Register_untracked_error env q aURI aLink self err h hq).1
    | ok u =>
      cases u
      cases aLink with
      | none => exact Or.inl (Register_untracked_ok_null env q aURI self h hq).1
      | some link =>
        exact Or.inr (Or.inl ⟨link, rfl, rfl,
          (Register_untracked_ok_link env q aURI link self h hq).1⟩)
  | some links =>
    cases aLink with
    | none => exact Or.inl (Register_tracked_null env q aURI self links h).1
    | some link =>
      exact Or.inr (Or.inr ⟨link, links, rfl, rfl,
        (Register_tracked_link env q aURI link self links h).1⟩)

/-- The state after an `UnregisterVisitedCallback`, in the three cases. -/
theorem Unregister_state_cases (aURI : URI) (aLink : Link) (self : State) :
    (UnregisterVisitedCallback aURI aLink self).1 = self ∨
      (UnregisterVisitedCallback aURI aLink self).1 =
        { mTrackedURIs := self.mTrackedURIs.Remove aURI } ∨
      (∃ links, self.mTrackedURIs aURI = some links ∧ links.mLinks.erase aLink ≠ [] ∧
        (UnregisterVisitedCallback aURI aLink self).1 =
          { mTrackedURIs := self.mTrackedURIs.Put aURI
              { links with mLinks := links.mLinks.erase aLink } }) := by
  cases h : self.mTrackedURIs aURI with
  | none => rw [Unregister_untracked aURI aLink self h]; exact Or.inl rfl
  | some links =>
    by_cases hl : aLink ∈ links.mLinks
    · by_cases he : links.mLinks.erase aLink = []
      · rw [Unregister_last aURI aLink self links h hl he]; exact Or.inr (Or.inl rfl)
      · rw [Unregister_not_last aURI aLink self links h hl he]
        exact Or.inr (Or.inr ⟨links, rfl, he, rfl⟩)
    · rw [Unregister_unknown_link aURI aLink self links h hl]; exact Or.inl rfl

/-- The state after a `NotifyVisited`, in the two cases. -/
theorem NotifyVisited_state_cases (env : Env) (aURI : Option URI) (self : State) :
    (NotifyVisited env aURI self).1 = self ∨
      (∃ uri links, aURI = some uri ∧ self.mTrackedURIs uri = some links ∧
        (NotifyVisited env aURI self).1 =
          { mTrackedURIs := self.mTrackedURIs.Put uri { links with mKnownVisited := true } }) := by
  cases aURI with
  | none => exact Or.inl rfl
  | some uri =>
    cases h : self.mTrackedURIs uri with
    | none => left; simp [NotifyVisited, h]
    | some links =>
      right
      exact ⟨uri, links, rfl, h, by rw [NotifyVisited_tracked env uri self links h]⟩

/-- The state after a `NotifyVisitedForDocument`, in the three cases. -/
theorem NotifyVisitedForDocument_state_cases (env : Env) (aURI : URI)
    (aDoc : Option Document) (self : State) :
    (NotifyVisitedForDocument env aURI aDoc self).1 = self ∨
      (NotifyVisitedForDocument env aURI aDoc self).1 =
        { mTrackedURIs := self.mTrackedURIs.Remove aURI } ∨
      (∃ links, self.mTrackedURIs aURI = some links ∧
        specRetained env aDoc links.mLinks ≠ [] ∧
        (NotifyVisitedForDocument env aURI aDoc self).1 =
          { mTrackedURIs := self.mTrackedURIs.Put aURI
              { links with mLinks := specRetained env aDoc links.mLinks } }) := by
  cases h : self.mTrackedURIs aURI with
  | none => rw [NotifyVisitedForDocument_untracked env aURI aDoc self h]; exact Or.inl rfl
  | some links =>
    rw [NotifyVisitedForDocument_tracked env aURI aDoc self links h]
    by_cases he : specRetained env aDoc links.mLinks = []
    · right; left; simp [he]
    · right; right; exact ⟨links, rfl, he, by simp [he]⟩

/-! ## C7: no Entry with an empty observer array -/

/-- C7. "Every Entry of the table has a non-empty observer array" holds of the empty
table and is preserved by every call: `RegisterVisitedCallback` with or without a link
and whatever the store answers, `UnregisterVisitedCallback`, `NotifyVisited` and the
runnable body `NotifyVisitedForDocument`. -/
theorem C7_no_empty_entry (env : Env) (self : State) (c : Call) (h : NoEmptyEntry self) :
    NoEmptyEntry State.init ∧ NoEmptyEntry (step env self c).1 := by
  have h0 : NoEmptyEntry State.init := by
    intro u l hu
    simp [State.init, Table.empty] at hu
  refine ⟨h0, ?_⟩
  cases c with
  | Register aURI aLink queryResult =>
    show NoEmptyEntry (RegisterVisitedCallback env (fun _ => queryResult) aURI aLink self).state
    rcases Register_state_cases env (fun _ => queryResult) aURI aLink self with
      hs | ⟨link, _, _, hs⟩ | ⟨link, links, _, _, hs⟩
    · rw [hs]; exact h
    · rw [hs]; exact entries_Put _ _ _ _ h (by simp)
    · rw [hs]; exact entries_Put _ _ _ _ h (by simp)
  | Unregister aURI aLink =>
    show NoEmptyEntry (UnregisterVisitedCallback aURI aLink self).1
    rcases Unregister_state_cases aURI aLink self with hs | hs | ⟨links, _, he, hs⟩
    · rw [hs]; exact h
    · rw [hs]; exact entries_Remove _ _ _ h
    · rw [hs]; exact entries_Put _ _ _ _ h he
  | NotifyVisited aURI =>
    show NoEmptyEntry (NotifyVisited env aURI self).1
    rcases NotifyVisited_state_cases env aURI self with hs | ⟨uri, links, _, hl, hs⟩
    · rw [hs]; exact h
    · rw [hs]; exact entries_Put _ _ _ _ h (h uri links hl)
  | Deliver aURI aDoc =>
    show NoEmptyEntry (NotifyVisitedForDocument env aURI aDoc self).1
    rcases NotifyVisitedForDocument_state_cases env aURI aDoc self with
      hs | hs | ⟨links, _, he, hs⟩
    · rw [hs]; exact h
    · rw [hs]; exact entries_Remove _ _ _ h
    · rw [hs]; exact entries_Put _ _ _ _ h he

theorem NoEmptyEntry_sampleState : NoEmptyEntry sampleState := by
  intro u l hu
  by_cases hk : u = 7
  · subst hk
    have : l = { mLinks := [1, 2, 3, 4, 5], mKnownVisited := true } := by
      have h7 : sampleState.mTrackedURIs 7 =
          some { mLinks := [1, 2, 3, 4, 5], mKnownVisited := true } := by decide
      rw [h7] at hu
      exact (Option.some.inj hu).symm
    rw [this]
    decide
  · have : sampleState.mTrackedURIs u = none := by
      simp [sampleState, Table.Put, Table.empty, hk]
    rw [this] at hu
    cases hu

/-- C7 at the delivery to document `1` on the sample state. -/
theorem C7_no_empty_entry_witness :
    NoEmptyEntry sampleState ∧
      NoEmptyEntry (step sampleEnv sampleState (Call.Deliver 7 (some 1))).1 :=
  ⟨NoEmptyEntry_sampleState,
    (C7_no_empty_entry sampleEnv sampleState (Call.Deliver 7 (some 1))
      NoEmptyEntry_sampleState).2⟩

/-! ## C9: no observer twice in an Entry -/

/-- C9. When every Entry holds each of its observers once, and a
`RegisterVisitedCallback` is only called with a link that is not yet an observer of the
URI, then after any call (`RegisterVisitedCallback`, `UnregisterVisitedCallback`,
`NotifyVisited`, or the runnable body `NotifyVisitedForDocument`) every Entry still holds
each of its observers once. The condition is per URI: the link may be an observer of
other URIs. -/
theorem C9_no_duplicate_observer (env : Env) (self : State) (c : Call)
    (h : NoDuplicate self)
    (hreg : ∀ aURI link queryResult, c = Call.Register aURI (some link) queryResult →
      link ∉ observersOf self aURI) :
    NoDuplicate (step env self c).1 := by
  cases c with
  | Register aURI aLink queryResult =>
    show NoDuplicate (RegisterVisitedCallback env (fun _ => queryResult) aURI aLink self).state
    rcases Register_state_cases env (fun _ => queryResult) aURI aLink self with
      hs | ⟨link, _, _, hs⟩ | ⟨link, links, hl, ht, hs⟩
    · rw [hs]; exact h
    · rw [hs]; exact entries_Put _ _ _ _ h (by simp)
    · rw [hs]
      refine entries_Put _ _ _ _ h ?_
      have hnot := hreg aURI link queryResult (by rw [hl])
      simp only [observersOf, ht] at hnot
      have hnd := h aURI links ht
      show (links.mLinks ++ [link]).Nodup
      rw [List.nodup_append]
      refine ⟨hnd, by simp, ?_⟩
      intro a ha hb
      rw [List.mem_singleton] at hb
      exact hnot (hb ▸ ha)
  | Unregister aURI aLink =>
    show NoDuplicate (UnregisterVisitedCallback aURI aLink self).1
    rcases Unregister_state_cases aURI aLink self with hs | hs | ⟨links, ht, _, hs⟩
    · rw [hs]; exact h
    · rw [hs]; exact entries_Remove _ _ _ h
    · rw [hs]; exact entries_Put _ _ _ _ h ((h aURI links ht).erase aLink)
  | NotifyVisited aURI =>
    show NoDuplicate (NotifyVisited env aURI self).1
    rcases NotifyVisited_state_cases env aURI self with hs | ⟨uri, links, _, hl, hs⟩
    · rw [hs]; exact h
    · rw [hs]; exact entries_Put _ _ _ _ h (h uri links hl)
  | Deliver aURI aDoc =>
    show NoDuplicate (NotifyVisitedForDocument env aURI aDoc self).1
    rcases NotifyVisitedForDocument_state_cases env aURI aDoc self with
      hs | hs | ⟨links, ht, _, hs⟩
    · rw [hs]; exact h
    · rw [hs]; exact entries_Remove _ _ _ h
    · rw [hs]; exact entries_Put _ _ _ _ h ((h aURI links ht).filter _)

theorem NoDuplicate_sampleState : NoDuplicate sampleState := by
  intro u l hu
  by_cases hk : u = 7
  · subst hk
    have : l = { mLinks := [1, 2, 3, 4, 5], mKnownVisited := true } := by
      have h7 : sampleState.mTrackedURIs 7 =
          some { mLinks := [1, 2, 3, 4, 5], mKnownVisited := true } := by decide
      rw [h7] at hu
      exact (Option.some.inj hu).symm
    rw [this]
    decide
  · have : sampleState.mTrackedURIs u = none := by
      simp [sampleState, Table.Put, Table.empty, hk]
    rw [this] at hu
    cases hu

/-- C9 at link `6`, not yet an observer of URI `7`, registered on the sample state. -/
theorem C9_no_duplicate_observer_witness :
    NoDuplicate sampleState ∧ 6 ∉ observersOf sampleState 7 ∧
      NoDuplicate (step sampleEnv sampleState (Call.Register 7 (some 6) (Except.ok ()))).1 :=
  ⟨NoDuplicate_sampleState, by decide,
    C9_no_duplicate_observer sampleEnv sampleState (Call.Register 7 (some 6) (Except.ok ()))
      NoDuplicate_sampleState
      (fun aURI link queryResult hc => by
        cases hc
        decide)⟩

/-! ## C8: `NotifyVisited` followed by all its runnables -/

theorem count_filter_ite (p : Link → Bool) (ls : List Link) (l : Link) :
    (ls.filter p).count l = if p l = true then ls.count l else 0 := by
  by_cases hp : p l = true
  · rw [if_pos hp]
    exact List.count_filter hp
  · rw [if_neg hp, List.count_eq_zero, List.mem_filter]
    exact fun hm => hp hm.2

theorem runRunnables_nil (env : Env) (self : State) : runRunnables env self [] = (self, []) :=
  rfl

theorem runRunnables_cons (env : Env) (self : State) (r : Runnable) (rs : List Runnable) :
    runRunnables env self (r :: rs) =
      ((runRunnables env (NotifyVisitedForDocument env r.aURI r.aDoc self).1 rs).1,
        (NotifyVisitedForDocument env r.aURI r.aDoc self).2 ++
          (runRunnables env (NotifyVisitedForDocument env r.aURI r.aDoc self).1 rs).2) :=
  rfl

/-- Running runnables that are all for `uri`: the observers left, how often each link is
marked, and that an Entry for `uri` is not left empty. -/
theorem runRunnables_same_uri (env : Env) (uri : URI) :
    ∀ (rs : List Runnable) (self : State), (∀ r ∈ rs, r.aURI = uri) →
      observersOf (runRunnables env self rs).1 uri =
          (observersOf self uri).filter
            (fun l => decide (GetLinkDocument env l ∉ rs.map Runnable.aDoc)) ∧
        (∀ l : Link, (marked (runRunnables env self rs).2).count l =
          if GetLinkDocument env l ∈ rs.map Runnable.aDoc
          then (observersOf self uri).count l else 0) ∧
        ((∀ links, self.mTrackedURIs uri = some links → links.mLinks ≠ []) →
          ∀ links, (runRunnables env self rs).1.mTrackedURIs uri = some links →
            links.mLinks ≠ []) := by
  intro rs
  induction rs with
  | nil =>
    intro self _
    refine ⟨?_, ?_, fun h => h⟩
    · simp [runRunnables_nil]
    · intro l; simp [runRunnables_nil, marked]
  | cons r rs ih =>
    intro self hall
    have hr : r.aURI = uri := hall r (List.mem_cons_self _ _)
    have hrest : ∀ x ∈ rs, x.aURI = uri := fun x hx => hall x (List.mem_cons_of_mem _ hx)
    obtain ⟨ih1, ih2, ih3⟩ := ih (NotifyVisitedForDocument env r.aURI r.aDoc self).1 hrest
    have hobs1 : observersOf (NotifyVisitedForDocument env r.aURI r.aDoc self).1 uri =
        specRetained env r.aDoc (observersOf self uri) := by
      rw [hr]; exact observersOf_NotifyVisitedForDocument env uri r.aDoc self
    rw [runRunnables_cons]
    refine ⟨?_, ?_, ?_⟩
    · rw [ih1, hobs1, specRetained, List.filter_filter]
      apply List.filter_congr
      intro l _
      simp only [List.map_cons, List.mem_cons, not_or, Bool.decide_and, Bool.and_comm]
    · intro l
      simp only [marked_append, List.count_append]
      rw [ih2 l, hobs1, hr, marked_NotifyVisitedForDocument, List.count_reverse,
        count_specMatching, specRetained, count_filter_ite]
      by_cases hd : GetLinkDocument env l = r.aDoc
      · simp [hd]
      · simp [hd]
    · intro htidy
      apply ih3
      intro links hl
      rw [hr] at hl
      rcases NotifyVisitedForDocument_state_cases env uri r.aDoc self with
        hs | hs | ⟨links0, _, he, hs⟩
      · rw [hs] at hl; exact htidy links hl
      · rw [hs] at hl
        simp [Table.Remove_same] at hl
      · rw [hs] at hl
        simp only [Table.Put_same, Option.some.injEq] at hl
        rw [← hl]
        exact he

/-- C8. For every state in which `uri` has an Entry whose observers are pairwise
distinct (and, as for every Entry, not empty), `NotifyVisited(uri)` followed by all the
runnables it dispatched, run in any order `rs` and with nothing else in between, marks
no link during `NotifyVisited`, marks every observer of `uri` exactly once and no other
link during the runnables, and leaves no Entry for `uri`. -/
theorem C8_notify_then_deliver_all (env : Env) (uri : URI) (self : State)
    (links : ObservingLinks) (rs : List Runnable)
    (h : self.mTrackedURIs uri = some links) (hne : links.mLinks ≠ [])
    (hnd : links.mLinks.Nodup)
    (hperm : rs.Perm (scheduled (NotifyVisited env (some uri) self).2)) :
    marked (NotifyVisited env (some uri) self).2 = [] ∧
      (∀ l ∈ links.mLinks,
        (marked (runRunnables env (NotifyVisited env (some uri) self).1 rs).2).count l = 1) ∧
      (∀ l, l ∉ links.mLinks →
        l ∉ marked (runRunnables env (NotifyVisited env (some uri) self).1 rs).2) ∧
      (runRunnables env (NotifyVisited env (some uri) self).1 rs).1.mTrackedURIs uri = none := by
  have hsched := scheduled_NotifyVisited env uri self links h
  have hstate : (NotifyVisited env (some uri) self).1 =
      { mTrackedURIs := self.mTrackedURIs.Put uri { links with mKnownVisited := true } } := by
    rw [NotifyVisited_tracked env uri self links h]
  have hall : ∀ r ∈ rs, r.aURI = uri := by
    intro r hr
    have := hperm.mem_iff.mp hr
    rw [hsched, List.mem_map] at this
    obtain ⟨d, _, rfl⟩ := this
    rfl
  have hdocs : ∀ d, d ∈ rs.map Runnable.aDoc ↔ d ∈ owningContexts env links.mLinks := by
    intro d
    rw [(hperm.map Runnable.aDoc).mem_iff, hsched, List.map_map]
    have : (Runnable.aDoc ∘ fun d => ({ aURI := uri, aDoc := d } : Runnable)) = id := rfl
    rw [this, List.map_id, mem_fanOut]
    simp [owningContexts]
  have hobs : observersOf (NotifyVisited env (some uri) self).1 uri = links.mLinks := by
    rw [hstate]; simp [observersOf, Table.Put_same]
  have hin : ∀ l ∈ links.mLinks, GetLinkDocument env l ∈ rs.map Runnable.aDoc := by
    intro l hl
    rw [hdocs]
    exact List.mem_map_of_mem _ hl
  obtain ⟨h1, h2, h3⟩ := runRunnables_same_uri env uri rs (NotifyVisited env (some uri) self).1 hall
  rw [hobs] at h1 h2
  have hempty : observersOf (runRunnables env (NotifyVisited env (some uri) self).1 rs).1 uri
      = [] := by
    rw [h1, List.filter_eq_nil_iff]
    intro l hl
    simp [hin l hl]
  refine ⟨?_, ?_, ?_, ?_⟩
  · rw [NotifyVisited_tracked env uri self links h, marked_append,
      marked_map_DispatchNotifyVisited]
    split_ifs <;> simp [marked]
  · intro l hl
    rw [h2 l, if_pos (hin l hl)]
    exact List.count_eq_one_of_mem hnd hl
  · intro l hl
    rw [← List.count_eq_zero, h2 l]
    split_ifs
    · exact List.count_eq_zero.mpr hl
    · rfl
  · have htidy : ∀ links', (NotifyVisited env (some uri) self).1.mTrackedURIs uri = some links' →
        links'.mLinks ≠ [] := by
      intro links' hl'
      rw [hstate] at hl'
      simp only [Table.Put_same, Option.some.injEq] at hl'
      rw [← hl']
      exact hne
    cases hfin : (runRunnables env (NotifyVisited env (some uri) self).1 rs).1.mTrackedURIs uri with
    | none => rfl
    | some links' =>
      exfalso
      apply h3 htidy links' hfin
      simpa [observersOf, hfin] using hempty

/-- C8 at the sample state, the two runnables run in the order opposite to their
dispatch. -/
theorem C8_notify_then_deliver_all_witness :
    [({ aURI := 7, aDoc := some 0 } : Runnable), { aURI := 7, aDoc := some 1 }].Perm
        (scheduled (NotifyVisited sampleEnv (some 7) sampleState).2) ∧
      (runRunnables sampleEnv (NotifyVisited sampleEnv (some 7) sampleState).1
        [{ aURI := 7, aDoc := some 0 }, { aURI := 7, aDoc := some 1 }]).1.mTrackedURIs 7 = none :=
  ⟨by decide,
    (C8_notify_then_deliver_all sampleEnv 7 sampleState
      { mLinks := [1, 2, 3, 4, 5], mKnownVisited := true }
      [{ aURI := 7, aDoc := some 0 }, { aURI := 7, aDoc := some 1 }]
      (by decide) (by decide) (by decide) (by decide)).2.2.2⟩

/-! ## C10: registering a link that is already an observer -/

/-- C10, as stated, fails: link `8` is the observer of URI `3`; registering it again for
URI `3` leaves it twice among the observers of URI `3`. -/
theorem C10_duplicate_kept_counterexample :
    8 ∈ observersOf singleState 3 ∧
      observersOf (RegisterVisitedCallback sampleEnv (fun _ => Except.ok ()) 3 (some 8)
        singleState).state 3 = [8, 8] ∧
      ¬ ((observersOf (RegisterVisitedCallback sampleEnv (fun _ => Except.ok ()) 3 (some 8)
        singleState).state 3).count 8 ≤ 1) := by
  decide

/-- C10, amended. Registering a link that is already an observer of the URI is flagged,
not rejected: the assertion "Already tracking this Link object!" fails, and the code
past the assertion returns `NS_OK` and appends the link once more, so that it occurs
one more time among the observers of the URI than before. -/
theorem C10_duplicate_flagged_and_appended (env : Env) (q : URI → Except nsresult Unit)
    (aURI : URI) (link : Link) (self : State) (links : ObservingLinks)
    (h : self.mTrackedURIs aURI = some links) (hl : link ∈ links.mLinks) :
    Assertion.AlreadyTracking ∈
        violations (RegisterVisitedCallback env q aURI (some link) self).effects ∧
      (RegisterVisitedCallback env q aURI (some link) self).rv = NS_OK ∧
      observersOf (RegisterVisitedCallback env q aURI (some link) self).state aURI =
        links.mLinks ++ [link] ∧
      (observersOf (RegisterVisitedCallback env q aURI (some link) self).state aURI).count link =
        (observersOf self aURI).count link + 1 := by
  obtain ⟨hs, hrv, he⟩ := Register_tracked_link env q aURI link self links h
  have hobs : observersOf (RegisterVisitedCallback env q aURI (some link) self).state aURI =
      links.mLinks ++ [link] := by
    rw [hs]; simp [observersOf, Table.Put_same]
  refine ⟨?_, hrv, hobs, ?_⟩
  · rw [he]
    simp only [violations_append, hl, if_true, List.mem_append]
    exact Or.inl (Or.inr (by simp [violations]))
  · rw [hobs]
    simp [observersOf, h]

/-- C10, amended, at link `8` registered again for URI `3`. -/
theorem C10_duplicate_flagged_and_appended_witness :
    8 ∈ observersOf singleState 3 ∧
      Assertion.AlreadyTracking ∈
        violations (RegisterVisitedCallback sampleEnv (fun _ => Except.ok ()) 3 (some 8)
          singleState).effects :=
  ⟨by decide,
    (C10_duplicate_flagged_and_appended sampleEnv (fun _ => Except.ok ()) 3 8 singleState
      { mLinks := [8], mKnownVisited := false } (by decide) (by decide)).1⟩

/-! ## Reading effect lists by membership -/

theorem mem_marked (es : List Effect) (l : Link) :
    l ∈ marked es ↔ Effect.SetLinkStateVisited l ∈ es := by
  induction es with
  | nil => simp [marked]
  | cons e es ih => cases e <;> simp [marked, ih]

theorem mem_started (es : List Effect) (u : URI) :
    u ∈ started es ↔ Effect.StartVisitedQuery u ∈ es := by
  induction es with
  | nil => simp [started]
  | cons e es ih => cases e <;> simp [started, ih]

theorem mem_cancelled (es : List Effect) (u : URI) :
    u ∈ cancelled es ↔ Effect.CancelVisitedQueryIfPossible u ∈ es := by
  induction es with
  | nil => simp [cancelled]
  | cons e es ih => cases e <;> simp [cancelled, ih]

theorem mem_scheduled (es : List Effect) (r : Runnable) :
    r ∈ scheduled es ↔ ∃ target, Effect.Dispatch target r ∈ es := by
  induction es with
  | nil => simp [scheduled]
  | cons e es ih =>
    cases e with
    | Dispatch t x =>
      simp only [scheduled, List.mem_cons, ih, Effect.Dispatch.injEq]
      constructor
      · rintro (h | ⟨t', h⟩)
        · exact ⟨t, Or.inl ⟨rfl, h⟩⟩
        · exact ⟨t', Or.inr h⟩
      · rintro ⟨t', ⟨_, h⟩ | h⟩
        · exact Or.inl h
        · exact Or.inr ⟨t', h⟩
    | _ => simp [scheduled, ih]

theorem mem_violations (es : List Effect) (a : Assertion) :
    a ∈ violations es ↔ Effect.AssertionFailure a ∈ es := by
  induction es with
  | nil => simp [violations]
  | cons e es ih => cases e <;> simp [violations, ih]

theorem isRequestFor_DispatchNotifyVisited (aURI : URI) (aDoc : Option Document) :
    (DispatchNotifyVisited aURI aDoc).isRequestFor aURI := by
  cases aDoc <;> rfl

/-! ## The effects of the entry points -/

/-- Every effect of a `RegisterVisitedCallback` is a request about its URI or a failed
assertion. -/
theorem Register_effects (env : Env) (q : URI → Except nsresult Unit) (aURI : URI)
    (aLink : Option Link) (self : State) :
    ∀ e ∈ (RegisterVisitedCallback env q aURI aLink self).effects, e.isRequestFor aURI := by
  intro e he
  cases h : self.mTrackedURIs aURI with
  | none =>
    cases hq : q aURI with
    | error err =>
      rw [(Register_untracked_error env q aURI aLink self err h hq).2.2] at he
      simp only [List.mem_append, List.mem_singleton] at he
      rcases he with he | he
      · split_ifs at he
        · rw [List.mem_singleton] at he; subst he; trivial
        · cases he
      · subst he; rfl
    | ok u =>
      cases u
      cases aLink with
      | none =>
        rw [(Register_untracked_ok_null env q aURI self h hq).2.2] at he
        simp only [List.mem_append, List.mem_singleton] at he
        rcases he with (he | he) | he
        · split_ifs at he
          · rw [List.mem_singleton] at he; subst he; trivial
          · cases he
        · subst he; rfl
        · split_ifs at he
          · cases he
          · rw [List.mem_singleton] at he; subst he; trivial
      | some link =>
        rw [(Register_untracked_ok_link env q aURI link self h hq).2.2, List.mem_singleton] at he
        subst he; rfl
  | some links =>
    cases aLink with
    | none =>
      rw [(Register_tracked_null env q aURI self links h).2.2] at he
      simp only [List.mem_append] at he
      rcases he with (he | he) | he
      · split_ifs at he
        · rw [List.mem_singleton] at he; subst he; trivial
        · cases he
      · split_ifs at he
        · rw [List.mem_singleton] at he; subst he; trivial
        · cases he
      · split_ifs at he
        · cases he
        · rw [List.mem_singleton] at he; subst he; trivial
    | some link =>
      rw [(Register_tracked_link env q aURI link self links h).2.2] at he
      simp only [List.mem_append] at he
      rcases he with (he | he) | he
      · split_ifs at he
        · rw [List.mem_singleton] at he; subst he; trivial
        · cases he
      · split_ifs at he
        · rw [List.mem_singleton] at he; subst he; trivial
        · cases he
      · split_ifs at he
        · rw [List.mem_singleton] at he; subst he
          exact isRequestFor_DispatchNotifyVisited _ _
        · cases he

/-- Every effect of an `UnregisterVisitedCallback` is a request about its URI or a
failed assertion. -/
theorem Unregister_effects (aURI : URI) (aLink : Link) (self : State) :
    ∀ e ∈ (UnregisterVisitedCallback aURI aLink self).2, e.isRequestFor aURI := by
  intro e he
  cases h : self.mTrackedURIs aURI with
  | none =>
    rw [Unregister_untracked aURI aLink self h, List.mem_singleton] at he
    subst he; trivial
  | some links =>
    by_cases hl : aLink ∈ links.mLinks
    · by_cases hlast : links.mLinks.erase aLink = []
      · rw [Unregister_last aURI aLink self links h hl hlast, List.mem_singleton] at he
        subst he; rfl
      · rw [Unregister_not_last aURI aLink self links h hl hlast] at he
        cases he
    · rw [Unregister_unknown_link aURI aLink self links h hl, List.mem_singleton] at he
      subst he; trivial

theorem NotifyVisited_untracked (env : Env) (uri : URI) (self : State)
    (h : self.mTrackedURIs uri = none) :
    NotifyVisited env (some uri) self = (self, []) := by
  simp [NotifyVisited, h]

/-- Every effect of a `NotifyVisited` is a request about its URI or a failed assertion. -/
theorem NotifyVisited_effects (env : Env) (uri : URI) (self : State) :
    ∀ e ∈ (NotifyVisited env (some uri) self).2, e.isRequestFor uri := by
  intro e he
  cases h : self.mTrackedURIs uri with
  | none =>
    rw [NotifyVisited_untracked env uri self h] at he
    cases he
  | some links =>
    rw [NotifyVisited_tracked env uri self links h] at he
    simp only [List.mem_append, List.mem_map] at he
    rcases he with he | ⟨d, _, rfl⟩
    · split_ifs at he
      · rw [List.mem_singleton] at he; subst he; trivial
      · cases he
    · exact isRequestFor_DispatchNotifyVisited _ _

/-- Every effect of an entry point is a request about the URI of the call or a failed
assertion. -/
theorem entryPoint_effects (env : Env) (self : State) (c : Call) (hc : c.isDeliver = false) :
    ∀ e ∈ (step env self c).2, ∃ uri, c.target = some uri ∧ e.isRequestFor uri := by
  intro e he
  cases c with
  | Register aURI aLink queryResult =>
    exact ⟨aURI, rfl, Register_effects env _ aURI aLink self e he⟩
  | Unregister aURI aLink =>
    exact ⟨aURI, rfl, Unregister_effects aURI aLink self e he⟩
  | NotifyVisited aURI =>
    cases aURI with
    | none => cases he
    | some uri => exact ⟨uri, rfl, NotifyVisited_effects env uri self e he⟩
  | Deliver aURI aDoc => cases hc

/-- Every effect of the runnable body is a `SetLinkState` call. -/
theorem NotifyVisitedForDocument_effects (env : Env) (aURI : URI) (aDoc : Option Document)
    (self : State) :
    ∀ e ∈ (NotifyVisitedForDocument env aURI aDoc self).2,
      ∃ link, e = Effect.SetLinkStateVisited link := by
  intro e he
  cases h : self.mTrackedURIs aURI with
  | none =>
    rw [NotifyVisitedForDocument_untracked env aURI aDoc self h] at he
    cases he
  | some links =>
    rw [NotifyVisitedForDocument_tracked env aURI aDoc self links h] at he
    simp only [List.mem_map] at he
    obtain ⟨l, _, rfl⟩ := he
    exact ⟨l, rfl⟩

/-! ## C11: the violations of `UnregisterVisitedCallback` -/

/-- C11. `UnregisterVisitedCallback(aURI, aLink)` fails an assertion exactly when `aURI`
has no Entry ("Trying to unregister URI that wasn't registered!") or `aLink` is not
among the observers of that Entry ("Trying to unregister node that wasn't registered!");
in both cases the state is left as it was and no cancellation is requested. -/
theorem C11_unregister_violations (aURI : URI) (aLink : Link) (self : State) :
    (violations (UnregisterVisitedCallback aURI aLink self).2 ≠ [] ↔
        (self.mTrackedURIs aURI = none ∨
          ∃ links, self.mTrackedURIs aURI = some links ∧ aLink ∉ links.mLinks)) ∧
      (self.mTrackedURIs aURI = none →
        violations (UnregisterVisitedCallback aURI aLink self).2 =
            [Assertion.UnregisterUnknownURI] ∧
          (UnregisterVisitedCallback aURI aLink self).1 = self ∧
          cancelled (UnregisterVisitedCallback aURI aLink self).2 = []) ∧
      (∀ links, self.mTrackedURIs aURI = some links → aLink ∉ links.mLinks →
        violations (UnregisterVisitedCallback aURI aLink self).2 =
            [Assertion.UnregisterUnknownNode] ∧
          (UnregisterVisitedCallback aURI aLink self).1 = self ∧
          cancelled (UnregisterVisitedCallback aURI aLink self).2 = []) := by
  refine ⟨?_, ?_, ?_⟩
  · cases h : self.mTrackedURIs aURI with
    | none =>
      rw [Unregister_untracked aURI aLink self h]
      simp [violations]
    | some links =>
      by_cases hl : aLink ∈ links.mLinks
      · by_cases hlast : links.mLinks.erase aLink = []
        · rw [Unregister_last aURI aLink self links h hl hlast]
          simp [violations, hl]
        · rw [Unregister_not_last aURI aLink self links h hl hlast]
          simp [violations, hl]
      · rw [Unregister_unknown_link aURI aLink self links h hl]
        simp [violations, hl]
  · intro h
    rw [Unregister_untracked aURI aLink self h]
    exact ⟨rfl, rfl, rfl⟩
  · intro links h hl
    rw [Unregister_unknown_link aURI aLink self links h hl]
    exact ⟨rfl, rfl, rfl⟩

/-- C11 at link `9`, which is not an observer of URI `3`. -/
theorem C11_unregister_violations_witness :
    singleState.mTrackedURIs 3 = some { mLinks := [8], mKnownVisited := false } ∧
      violations (UnregisterVisitedCallback 3 9 singleState).2 =
        [Assertion.UnregisterUnknownNode] ∧
      (UnregisterVisitedCallback 3 9 singleState).1 = singleState :=
  have h := (C11_unregister_violations 3 9 singleState).2.2
    { mLinks := [8], mKnownVisited := false } (by decide) (by decide)
  ⟨by decide, h.1, h.2.1⟩

/-! ## C12: `NotifyVisited` on an untracked URI -/

/-- C12. `NotifyVisited(uri)` on a URI with no Entry has no effect and leaves the state
as it was; a `RegisterVisitedCallback(uri, link)` that follows asks the store for a
lookup of `uri`, dispatches nothing and, the store starting the lookup, leaves an Entry
that holds the link with `mKnownVisited = false`. -/
theorem C12_notify_untracked_caches_nothing (env : Env) (q : URI → Except nsresult Unit)
    (uri : URI) (link : Link) (self : State) (h : self.mTrackedURIs uri = none) :
    NotifyVisited env (some uri) self = (self, []) ∧
      started (RegisterVisitedCallback env q uri (some link)
        (NotifyVisited env (some uri) self).1).effects = [uri] ∧
      scheduled (RegisterVisitedCallback env q uri (some link)
        (NotifyVisited env (some uri) self).1).effects = [] ∧
      (q uri = Except.ok () →
        (RegisterVisitedCallback env q uri (some link)
          (NotifyVisited env (some uri) self).1).state.mTrackedURIs uri =
            some { mLinks := [link], mKnownVisited := false }) := by
  have hn := NotifyVisited_untracked env uri self h
  rw [hn]
  refine ⟨rfl, Register_untracked_started env q uri (some link) self h, ?_, ?_⟩
  · cases hq : q uri with
    | error err =>
      rw [(Register_untracked_error env q uri (some link) self err h hq).2.2]
      simp [scheduled]
    | ok u =>
      cases u
      rw [(Register_untracked_ok_link env q uri link self h hq).2.2]
      rfl
  · intro hq
    rw [(Register_untracked_ok_link env q uri link self h hq).1]
    exact Table.Put_same _ _ _

/-- C12 at URI `9`, which the sample state does not track. -/
theorem C12_notify_untracked_caches_nothing_witness :
    sampleState.mTrackedURIs 9 = none ∧
      NotifyVisited sampleEnv (some 9) sampleState = (sampleState, []) ∧
      scheduled (RegisterVisitedCallback sampleEnv (fun _ => Except.ok ()) 9 (some 1)
        (NotifyVisited sampleEnv (some 9) sampleState).1).effects = [] :=
  have h := C12_notify_untracked_caches_nothing sampleEnv (fun _ => Except.ok ()) 9 1
    sampleState (by decide)
  ⟨by decide, h.1, h.2.2.1⟩

/-! ## C13: registering without a link -/

theorem scheduled_nil_of_assertions (es : List Effect)
    (h : ∀ e ∈ es, (∃ a, e = Effect.AssertionFailure a) ∨ ∃ u, e = Effect.StartVisitedQuery u) :
    scheduled es = [] := by
  rw [List.eq_nil_iff_forall_not_mem]
  intro r hr
  obtain ⟨t, ht⟩ := (mem_scheduled es r).mp hr
  rcases h _ ht with ⟨a, ha⟩ | ⟨u, hu⟩
  · cases ha
  · cases hu

/-- C13. `RegisterVisitedCallback(aURI, nullptr)`, the store starting the lookup,
returns `NS_OK` and leaves the state exactly as it was, in every state: no observer is
added, no Entry is left behind when there was none, an existing Entry keeps its
observers and its `mKnownVisited`, and nothing is dispatched. -/
theorem C13_register_null_link_frame (env : Env) (q : URI → Except nsresult Unit)
    (aURI : URI) (self : State) (hq : q aURI = Except.ok ()) :
    (RegisterVisitedCallback env q aURI none self).rv = NS_OK ∧
      (RegisterVisitedCallback env q aURI none self).state = self ∧
      (∀ u, observersOf (RegisterVisitedCallback env q aURI none self).state u =
        observersOf self u) ∧
      scheduled (RegisterVisitedCallback env q aURI none self).effects = [] := by
  cases h : self.mTrackedURIs aURI with
  | none =>
    obtain ⟨hs, hrv, he⟩ := Register_untracked_ok_null env q aURI self h hq
    refine ⟨hrv, hs, fun u => by rw [hs], ?_⟩
    rw [he]
    simp only [scheduled_append]
    split_ifs <;> simp [scheduled]
  | some links =>
    obtain ⟨hs, hrv, he⟩ := Register_tracked_null env q aURI self links h
    refine ⟨hrv, hs, fun u => by rw [hs], ?_⟩
    rw [he]
    simp only [scheduled_append]
    split_ifs <;> simp [scheduled]

/-- C13 at a call without a link for URI `7`, tracked by the sample state. -/
theorem C13_register_null_link_frame_witness :
    (RegisterVisitedCallback sampleEnv (fun _ => Except.ok ()) 7 none sampleState).rv = NS_OK ∧
      (RegisterVisitedCallback sampleEnv (fun _ => Except.ok ()) 7 none sampleState).state =
        sampleState :=
  have h := C13_register_null_link_frame sampleEnv (fun _ => Except.ok ()) 7 sampleState rfl
  ⟨h.1, h.2.1⟩

/-! ## C14: no link is marked inside an entry point -/

theorem marked_nil_of_requests (uri : URI) (es : List Effect)
    (h : ∀ e ∈ es, e.isRequestFor uri) : marked es = [] := by
  rw [List.eq_nil_iff_forall_not_mem]
  intro l hl
  exact h _ ((mem_marked es l).mp hl)

/-- C14. In every state and for every argument, `RegisterVisitedCallback`,
`UnregisterVisitedCallback` and `NotifyVisited` call `SetLinkState` on no link: what
they hand to `DispatchNotifyVisited` is dispatched, not run. A call that marks a link
is a run of the runnable body `NotifyVisitedForDocument`. -/
theorem C14_entry_points_mark_nothing (env : Env) (q : URI → Except nsresult Unit)
    (aURI : URI) (aLink : Option Link) (link : Link) (notified : Option URI) (self : State)
    (c : Call) :
    marked (RegisterVisitedCallback env q aURI aLink self).effects = [] ∧
      marked (UnregisterVisitedCallback aURI link self).2 = [] ∧
      marked (NotifyVisited env notified self).2 = [] ∧
      (marked (step env self c).2 ≠ [] → c.isDeliver = true) := by
  refine ⟨?_, ?_, ?_, ?_⟩
  · exact marked_nil_of_requests aURI _ (Register_effects env q aURI aLink self)
  · exact marked_nil_of_requests aURI _ (Unregister_effects aURI link self)
  · cases notified with
    | none => rfl
    | some uri => exact marked_nil_of_requests uri _ (NotifyVisited_effects env uri self)
  · intro hm
    by_contra hc
    have hc' : c.isDeliver = false := by simpa using hc
    apply hm
    rw [List.eq_nil_iff_forall_not_mem]
    intro l hl
    obtain ⟨u, _, hu⟩ := entryPoint_effects env self c hc' _ ((mem_marked _ l).mp hl)
    exact hu

/-- C14 at the run of a runnable on the sample state, which marks links. -/
theorem C14_entry_points_mark_nothing_witness :
    marked (step sampleEnv sampleState (Call.Deliver 7 (some 1))).2 ≠ [] ∧
      (Call.Deliver 7 (some 1)).isDeliver = true :=
  ⟨by decide,
    (C14_entry_points_mark_nothing sampleEnv (fun _ => Except.ok ()) 7 none 1 none sampleState
      (Call.Deliver 7 (some 1))).2.2.2 (by decide)⟩

/-! ## C16: one lookup per missing Entry -/

/-- C16. `RegisterVisitedCallback(aURI, aLink)` asks the store for exactly one lookup,
of `aURI`, when `aURI` has no Entry, and for none when `aURI` has an Entry, whatever
`aLink` is and whatever the store answers. -/
theorem C16_lookup_dedup (env : Env) (q : URI → Except nsresult Unit) (aURI : URI)
    (aLink : Option Link) (self : State) :
    (self.mTrackedURIs aURI = none →
        started (RegisterVisitedCallback env q aURI aLink self).effects = [aURI]) ∧
      (self.mTrackedURIs aURI ≠ none →
        started (RegisterVisitedCallback env q aURI aLink self).effects = []) :=
  ⟨fun h => Register_untracked_started env q aURI aLink self h,
    fun h => (Register_tracked_started env q aURI aLink self h).1⟩

/-- C16 at URI `7`, tracked by the sample state, and URI `9`, untracked. -/
theorem C16_lookup_dedup_witness :
    sampleState.mTrackedURIs 7 ≠ none ∧ sampleState.mTrackedURIs 9 = none ∧
      started (RegisterVisitedCallback sampleEnv (fun _ => Except.ok ()) 7 (some 6)
        sampleState).effects = [] ∧
      started (RegisterVisitedCallback sampleEnv (fun _ => Except.ok ()) 9 (some 6)
        sampleState).effects = [9] :=
  ⟨by decide, by decide,
    (C16_lookup_dedup sampleEnv (fun _ => Except.ok ()) 7 (some 6) sampleState).2 (by decide),
    (C16_lookup_dedup sampleEnv (fun _ => Except.ok ()) 9 (some 6) sampleState).1 (by decide)⟩

/-! ## C17: the link is appended -/

/-- C17. For every state, every URI and every link that is not yet an observer of the
URI, a `RegisterVisitedCallback` whose lookup, if one is needed, is started by the store
returns `NS_OK` and leaves as observers of the URI the previous ones (none when there was
no Entry) followed by the link; the Entry keeps its `mKnownVisited`, which is false for
an Entry the call creates. Nothing else in the Entry changes. -/
theorem C17_register_appends (env : Env) (q : URI → Except nsresult Unit) (aURI : URI)
    (link : Link) (self : State) (hq : q aURI = Except.ok ())
    (hnew : link ∉ observersOf self aURI) :
    (RegisterVisitedCallback env q aURI (some link) self).rv = NS_OK ∧
      observersOf (RegisterVisitedCallback env q aURI (some link) self).state aURI =
        observersOf self aURI ++ [link] ∧
      (self.mTrackedURIs aURI = none →
        (RegisterVisitedCallback env q aURI (some link) self).state.mTrackedURIs aURI =
          some { mLinks := [link], mKnownVisited := false }) ∧
      (∀ links, self.mTrackedURIs aURI = some links →
        (RegisterVisitedCallback env q aURI (some link) self).state.mTrackedURIs aURI =
          some { mLinks := links.mLinks ++ [link], mKnownVisited := links.mKnownVisited }) ∧
      (observersOf (RegisterVisitedCallback env q aURI (some link) self).state aURI).count link
        = 1 := by
  cases h : self.mTrackedURIs aURI with
  | none =>
    obtain ⟨hs, hrv, _⟩ := Register_untracked_ok_link env q aURI link self h hq
    have ht : (RegisterVisitedCallback env q aURI (some link) self).state.mTrackedURIs aURI =
        some { mLinks := [link], mKnownVisited := false } := by
      rw [hs]; exact Table.Put_same _ _ _
    refine ⟨hrv, ?_, fun _ => ht, fun links hl => (by cases hl), ?_⟩
    · simp [observersOf, ht, h]
    · simp [observersOf, ht]
  | some links =>
    obtain ⟨hs, hrv, _⟩ := Register_tracked_link env q aURI link self links h
    have ht : (RegisterVisitedCallback env q aURI (some link) self).state.mTrackedURIs aURI =
        some { mLinks := links.mLinks ++ [link], mKnownVisited := links.mKnownVisited } := by
      rw [hs]; exact Table.Put_same _ _ _
    have hnot : link ∉ links.mLinks := by simpa [observersOf, h] using hnew
    refine ⟨hrv, ?_, fun hn => (by cases hn), ?_, ?_⟩
    · simp [observersOf, ht, h]
    · intro links' hl
      cases hl
      exact ht
    · simp [observersOf, ht, List.count_eq_zero.mpr hnot]

/-- C17 at link `6` registered for URI `7` on the sample state. -/
theorem C17_register_appends_witness :
    6 ∉ observersOf sampleState 7 ∧
      observersOf (RegisterVisitedCallback sampleEnv (fun _ => Except.ok ()) 7 (some 6)
        sampleState).state 7 = observersOf sampleState 7 ++ [6] :=
  ⟨by decide,
    (C17_register_appends sampleEnv (fun _ => Except.ok ()) 7 6 sampleState rfl
      (by decide)).2.1⟩

/-! ## C20: a call touches the Entry of its own URI only -/

/-- A call leaves the Entry of every URI it is not made with as it was. -/
theorem step_other (env : Env) (self : State) (c : Call) (u : URI) (h : c.target ≠ some u) :
    (step env self c).1.mTrackedURIs u = self.mTrackedURIs u := by
  cases c with
  | Register aURI aLink queryResult =>
    have hu : u ≠ aURI := fun e => h (by rw [e]; rfl)
    show (RegisterVisitedCallback env (fun _ => queryResult) aURI aLink self).state.mTrackedURIs u
      = self.mTrackedURIs u
    rcases Register_state_cases env (fun _ => queryResult) aURI aLink self with
      hs | ⟨link, _, _, hs⟩ | ⟨link, links, _, _, hs⟩
    · rw [hs]
    · rw [hs]; exact Table.Put_other _ _ _ _ hu
    · rw [hs]; exact Table.Put_other _ _ _ _ hu
  | Unregister aURI aLink =>
    have hu : u ≠ aURI := fun e => h (by rw [e]; rfl)
    show (UnregisterVisitedCallback aURI aLink self).1.mTrackedURIs u = self.mTrackedURIs u
    rcases Unregister_state_cases aURI aLink self with hs | hs | ⟨links, _, _, hs⟩
    · rw [hs]
    · rw [hs]; exact Table.Remove_other _ _ _ hu
    · rw [hs]; exact Table.Put_other _ _ _ _ hu
  | NotifyVisited aURI =>
    show (NotifyVisited env aURI self).1.mTrackedURIs u = self.mTrackedURIs u
    rcases NotifyVisited_state_cases env aURI self with hs | ⟨uri, links, ha, _, hs⟩
    · rw [hs]
    · have hu : u ≠ uri := fun e => h (by rw [e, ha]; rfl)
      rw [hs]; exact Table.Put_other _ _ _ _ hu
  | Deliver aURI aDoc =>
    have hu : u ≠ aURI := fun e => h (by rw [e]; rfl)
    exact NotifyVisitedForDocument_other env aURI aDoc self u hu

/-- C20. A call made with URI `u` (`RegisterVisitedCallback`, `UnregisterVisitedCallback`,
`NotifyVisited`, or the runnable body `NotifyVisitedForDocument`) leaves the Entry of
every other URI `u'`, observers and `mKnownVisited`, as it was, and asks for no lookup,
no cancellation and no runnable for `u'`. -/
theorem C20_other_uris_untouched (env : Env) (self : State) (c : Call) (u' : URI)
    (h : c.target ≠ some u') :
    (step env self c).1.mTrackedURIs u' = self.mTrackedURIs u' ∧
      u' ∉ started (step env self c).2 ∧
      u' ∉ cancelled (step env self c).2 ∧
      (∀ r ∈ scheduled (step env self c).2, r.aURI ≠ u') := by
  refine ⟨step_other env self c u' h, ?_, ?_, ?_⟩
  · intro hm
    rw [mem_started] at hm
    cases hd : c.isDeliver with
    | false =>
      obtain ⟨u, hu, hr⟩ := entryPoint_effects env self c hd _ hm
      exact h (by rw [hu]; exact congrArg some hr.symm)
    | true =>
      cases c with
      | Deliver aURI aDoc =>
        obtain ⟨l, hl⟩ := NotifyVisitedForDocument_effects env aURI aDoc self _ hm
        cases hl
      | _ => cases hd
  · intro hm
    rw [mem_cancelled] at hm
    cases hd : c.isDeliver with
    | false =>
      obtain ⟨u, hu, hr⟩ := entryPoint_effects env self c hd _ hm
      exact h (by rw [hu]; exact congrArg some hr.symm)
    | true =>
      cases c with
      | Deliver aURI aDoc =>
        obtain ⟨l, hl⟩ := NotifyVisitedForDocument_effects env aURI aDoc self _ hm
        cases hl
      | _ => cases hd
  · intro r hm hr'
    rw [mem_scheduled] at hm
    obtain ⟨t, hm⟩ := hm
    cases hd : c.isDeliver with
    | false =>
      obtain ⟨u, hu, hr⟩ := entryPoint_effects env self c hd _ hm
      have hru : r.aURI = u := hr
      exact h (by rw [hu, ← hru, hr'])
    | true =>
      cases c with
      | Deliver aURI aDoc =>
        obtain ⟨l, hl⟩ := NotifyVisitedForDocument_effects env aURI aDoc self _ hm
        cases hl
      | _ => cases hd

/-- C20 at the last observer of URI `3` unregistered, seen from URI `7`. -/
theorem C20_other_uris_untouched_witness :
    (Call.Unregister 3 8).target ≠ some 7 ∧
      (step sampleEnv singleState (Call.Unregister 3 8)).1.mTrackedURIs 7 =
        singleState.mTrackedURIs 7 ∧
      7 ∉ cancelled (step sampleEnv singleState (Call.Unregister 3 8)).2 :=
  have h := C20_other_uris_untouched sampleEnv singleState (Call.Unregister 3 8) 7 (by decide)
  ⟨by decide, h.1, h.2.2.1⟩

/-! ## How a call changes the Entry of a URI -/

theorem Call.notifies_iff (uri : URI) (c : Call) :
    c.notifies uri = true ↔ c = Call.NotifyVisited (some uri) := by
  cases c with
  | NotifyVisited aURI =>
    cases aURI with
    | none => simp [Call.notifies]
    | some v => simp [Call.notifies]
  | _ => simp [Call.notifies]

theorem step_Register_state (env : Env) (self : State) (aURI : URI) (aLink : Option Link)
    (queryResult : Except nsresult Unit) :
    (step env self (Call.Register aURI aLink queryResult)).1 =
      (RegisterVisitedCallback env (fun _ => queryResult) aURI aLink self).state :=
  rfl

theorem step_Unregister_state (env : Env) (self : State) (aURI : URI) (aLink : Link) :
    (step env self (Call.Unregister aURI aLink)).1 =
      (UnregisterVisitedCallback aURI aLink self).1 :=
  rfl

theorem step_Deliver_state (env : Env) (self : State) (aURI : URI) (aDoc : Option Document) :
    (step env self (Call.Deliver aURI aDoc)).1 =
      (NotifyVisitedForDocument env aURI aDoc self).1 :=
  rfl

/-- A call other than `NotifyVisited(u)` leaves the Entry of `u` as it was, removes it,
creates it with `mKnownVisited = false`, or changes its observers only. -/
theorem step_entry_not_notified (env : Env) (self : State) (c : Call) (u : URI)
    (hn : c.notifies u = false) :
    (step env self c).1.mTrackedURIs u = self.mTrackedURIs u ∨
      (step env self c).1.mTrackedURIs u = none ∨
      (self.mTrackedURIs u = none ∧ ∃ link, (step env self c).1.mTrackedURIs u =
        some { mLinks := [link], mKnownVisited := false }) ∨
      (∃ links obs, self.mTrackedURIs u = some links ∧ (step env self c).1.mTrackedURIs u =
        some { mLinks := obs, mKnownVisited := links.mKnownVisited }) := by
  by_cases ht : c.target = some u
  · cases c with
    | Register aURI aLink queryResult =>
      have hu : aURI = u := Option.some.inj ht
      subst hu
      rw [step_Register_state]
      rcases Register_state_cases env (fun _ => queryResult) aURI aLink self with
        hs | ⟨link, _, hno, hs⟩ | ⟨link, links, _, hl, hs⟩
      · left; rw [hs]
      · right; right; left
        exact ⟨hno, link, by rw [hs]; exact Table.Put_same _ _ _⟩
      · right; right; right
        exact ⟨links, _, hl, by rw [hs]; exact Table.Put_same _ _ _⟩
    | Unregister aURI aLink =>
      have hu : aURI = u := Option.some.inj ht
      subst hu
      rw [step_Unregister_state]
      rcases Unregister_state_cases aURI aLink self with hs | hs | ⟨links, hl, _, hs⟩
      · left; rw [hs]
      · right; left; rw [hs]; exact Table.Remove_same _ _
      · right; right; right
        exact ⟨links, _, hl, by rw [hs]; exact Table.Put_same _ _ _⟩
    | NotifyVisited aURI =>
      have : (Call.NotifyVisited aURI).notifies u = true := by
        rw [Call.notifies_iff]
        exact congrArg Call.NotifyVisited ht
      rw [this] at hn
      cases hn
    | Deliver aURI aDoc =>
      have hu : aURI = u := Option.some.inj ht
      subst hu
      rw [step_Deliver_state]
      rcases NotifyVisitedForDocument_state_cases env aURI aDoc self with
        hs | hs | ⟨links, hl, _, hs⟩
      · left; rw [hs]
      · right; left; rw [hs]; exact Table.Remove_same _ _
      · right; right; right
        exact ⟨links, _, hl, by rw [hs]; exact Table.Put_same _ _ _⟩
  · exact Or.inl (step_other env self c u ht)

/-- The call `NotifyVisited(u)` does nothing when `u` has no Entry and otherwise sets
`mKnownVisited` in the Entry of `u`. -/
theorem step_entry_notified (env : Env) (self : State) (u : URI) :
    (self.mTrackedURIs u = none ∧
        (step env self (Call.NotifyVisited (some u))).1.mTrackedURIs u = none) ∨
      (∃ links, self.mTrackedURIs u = some links ∧
        (step env self (Call.NotifyVisited (some u))).1.mTrackedURIs u =
          some { links with mKnownVisited := true }) := by
  show (_ ∧ (NotifyVisited env (some u) self).1.mTrackedURIs u = none) ∨
    ∃ links, _ ∧ (NotifyVisited env (some u) self).1.mTrackedURIs u = _
  cases h : self.mTrackedURIs u with
  | none =>
    left
    rw [NotifyVisited_untracked env u self h]
    exact ⟨rfl, h⟩
  | some links =>
    right
    refine ⟨links, rfl, ?_⟩
    rw [NotifyVisited_tracked env u self links h]
    exact Table.Put_same _ _ _

/-- An Entry with `mKnownVisited = true` after a call had it before the call, unless the
call is `NotifyVisited` for its URI. -/
theorem known_origin (env : Env) (self : State) (c : Call) (u : URI) (links' : ObservingLinks)
    (h : (step env self c).1.mTrackedURIs u = some links')
    (hk : links'.mKnownVisited = true) :
    c = Call.NotifyVisited (some u) ∨
      ∃ links, self.mTrackedURIs u = some links ∧ links.mKnownVisited = true := by
  cases hn : c.notifies u with
  | true => exact Or.inl ((Call.notifies_iff u c).mp hn)
  | false =>
    right
    rcases step_entry_not_notified env self c u hn with
      hs | hs | ⟨_, link, hs⟩ | ⟨links, obs, hl, hs⟩
    · exact ⟨links', by rw [← hs]; exact h, hk⟩
    · rw [hs] at h; cases h
    · rw [hs] at h
      cases h
      cases hk
    · rw [hs] at h
      cases h
      exact ⟨links, hl, hk⟩

/-- While the Entry of a URI exists, no call turns its `mKnownVisited` back to false. -/
theorem known_persists (env : Env) (self : State) (c : Call) (u : URI)
    (links links' : ObservingLinks) (h : self.mTrackedURIs u = some links)
    (hk : links.mKnownVisited = true)
    (h' : (step env self c).1.mTrackedURIs u = some links') :
    links'.mKnownVisited = true := by
  cases hn : c.notifies u with
  | true =>
    rw [(Call.notifies_iff u c).mp hn] at h'
    rcases step_entry_notified env self u with ⟨_, hs⟩ | ⟨links0, _, hs⟩
    · rw [hs] at h'; cases h'
    · rw [hs] at h'; cases h'; rfl
  | false =>
    rcases step_entry_not_notified env self c u hn with
      hs | hs | ⟨hno, _⟩ | ⟨links0, obs, hl, hs⟩
    · rw [hs, h] at h'; cases h'; exact hk
    · rw [hs] at h'; cases h'
    · rw [hno] at h; cases h
    · rw [hs] at h'
      rw [hl] at h
      cases h
      cases h'
      exact hk

/-- An Entry that a call creates has `mKnownVisited = false`. -/
theorem created_not_known (env : Env) (self : State) (c : Call) (u : URI)
    (links' : ObservingLinks) (h : self.mTrackedURIs u = none)
    (h' : (step env self c).1.mTrackedURIs u = some links') :
    links'.mKnownVisited = false := by
  cases hn : c.notifies u with
  | true =>
    rw [(Call.notifies_iff u c).mp hn] at h'
    rcases step_entry_notified env self u with ⟨_, hs⟩ | ⟨links0, hl, _⟩
    · rw [hs] at h'; cases h'
    · rw [hl] at h; cases h
  | false =>
    rcases step_entry_not_notified env self c u hn with
      hs | hs | ⟨_, link, hs⟩ | ⟨links0, obs, hl, _⟩
    · rw [hs, h] at h'; cases h'
    · rw [hs] at h'; cases h'
    · rw [hs] at h'; cases h'; rfl
    · rw [hl] at h; cases h

/-! ## C18: `mKnownVisited` and the store's report -/

theorem notified_agrees_step (env : Env) (self : State) (flag : URI → Bool) (c : Call)
    (h : ∀ u links, self.mTrackedURIs u = some links →
      (links.mKnownVisited = true ↔ flag u = true)) :
    ∀ u links', (step env self c).1.mTrackedURIs u = some links' →
      (links'.mKnownVisited = true ↔ notifiedSinceCreation env self flag c u = true) := by
  intro u links' h'
  unfold notifiedSinceCreation
  simp only [h', Option.isSome_some, Bool.true_and]
  cases hn : c.notifies u with
  | true =>
    rw [(Call.notifies_iff u c).mp hn] at h'
    rcases step_entry_notified env self u with ⟨_, hs⟩ | ⟨links, hl, hs⟩
    · rw [hs] at h'; cases h'
    · rw [hs] at h'
      cases h'
      simp [hl]
  | false =>
    rcases step_entry_not_notified env self c u hn with
      hs | hs | ⟨hno, link, hs⟩ | ⟨links, obs, hl, hs⟩
    · rw [hs] at h'
      simp [h', h u links' h']
    · rw [hs] at h'; cases h'
    · rw [hs] at h'
      cases h'
      simp [hno]
    · rw [hs] at h'
      cases h'
      simp [hl, h u links hl]

theorem notified_agrees_run (env : Env) :
    ∀ (cs : List Call) (self : State) (flag : URI → Bool),
      (∀ u links, self.mTrackedURIs u = some links →
        (links.mKnownVisited = true ↔ flag u = true)) →
      ∀ u links, (run env self cs).1.mTrackedURIs u = some links →
        (links.mKnownVisited = true ↔ runNotified env self flag cs u = true) := by
  intro cs
  induction cs with
  | nil => intro self flag h u links hl; exact h u links hl
  | cons c cs ih =>
    intro self flag h u links hl
    exact ih (step env self c).1 (notifiedSinceCreation env self flag c)
      (notified_agrees_step env self flag c h) u links hl

/-- C18. In every state reached from the empty table by any calls, the Entry of a URI
has `mKnownVisited = true` exactly when `NotifyVisited` has been called for that URI
since the Entry was created. An Entry is created with `mKnownVisited = false`; no call
turns the flag back to false while the Entry exists; and `NotifyVisited(u)` on a tracked
URI changes nothing in the table but that flag. -/
theorem C18_known_visited_flag (env : Env) (cs : List Call) (self : State) (c : Call)
    (u : URI) :
    (∀ links, (run env State.init cs).1.mTrackedURIs u = some links →
        (links.mKnownVisited = true ↔
          runNotified env State.init (fun _ => false) cs u = true)) ∧
      (∀ links', self.mTrackedURIs u = none →
        (step env self c).1.mTrackedURIs u = some links' → links'.mKnownVisited = false) ∧
      (∀ links links', self.mTrackedURIs u = some links → links.mKnownVisited = true →
        (step env self c).1.mTrackedURIs u = some links' → links'.mKnownVisited = true) ∧
      (∀ links, self.mTrackedURIs u = some links →
        (NotifyVisited env (some u) self).1 =
          { mTrackedURIs := self.mTrackedURIs.Put u
              { mLinks := links.mLinks, mKnownVisited := true } }) := by
  refine ⟨?_, ?_, ?_, ?_⟩
  · intro links hl
    refine notified_agrees_run env cs State.init (fun _ => false) ?_ u links hl
    intro v links0 h0
    simp [State.init, Table.empty] at h0
  · intro links' h h'
    exact created_not_known env self c u links' h h'
  · intro links links' h hk h'
    exact known_persists env self c u links links' h hk h'
  · intro links h
    rw [NotifyVisited_tracked env u self links h]

/-- C18 at a link registered for URI `7` and the URI then reported visited. -/
theorem C18_known_visited_flag_witness :
    (run sampleEnv State.init
        [Call.Register 7 (some 1) (Except.ok ()), Call.NotifyVisited (some 7)]).1.mTrackedURIs 7
        = some { mLinks := [1], mKnownVisited := true } ∧
      runNotified sampleEnv State.init (fun _ => false)
        [Call.Register 7 (some 1) (Except.ok ()), Call.NotifyVisited (some 7)] 7 = true :=
  ⟨by decide,
    ((C18_known_visited_flag sampleEnv
      [Call.Register 7 (some 1) (Except.ok ()), Call.NotifyVisited (some 7)]
      State.init (Call.NotifyVisited none) 7).1
        { mLinks := [1], mKnownVisited := true } (by decide)).mp rfl⟩

/-! ## C19: a runnable is dispatched only for a URI reported visited -/

/-- A runnable is dispatched only by `NotifyVisited` for its URI or by a call on a URI
whose Entry has `mKnownVisited = true`. -/
theorem scheduled_origin (env : Env) (self : State) (c : Call) (r : Runnable)
    (hr : r ∈ scheduled (step env self c).2) :
    c = Call.NotifyVisited (some r.aURI) ∨
      ∃ links, self.mTrackedURIs r.aURI = some links ∧ links.mKnownVisited = true := by
  rw [mem_scheduled] at hr
  obtain ⟨t, hr⟩ := hr
  cases c with
  | Register aURI aLink queryResult =>
    right
    have he : Effect.Dispatch t r ∈
        (RegisterVisitedCallback env (fun _ => queryResult) aURI aLink self).effects := hr
    have hu : r.aURI = aURI := Register_effects env _ aURI aLink self _ he
    rw [hu]
    cases h : self.mTrackedURIs aURI with
    | none =>
      exfalso
      cases hq : queryResult with
      | error err =>
        rw [(Register_untracked_error env (fun _ => queryResult) aURI aLink self err h
          (by simp [hq])).2.2] at he
        simp only [List.mem_append, List.mem_singleton] at he
        rcases he with he | he
        · split_ifs at he
          · rw [List.mem_singleton] at he; cases he
          · cases he
        · cases he
      | ok x =>
        cases x
        cases aLink with
        | none =>
          rw [(Register_untracked_ok_null env (fun _ => queryResult) aURI self h
            (by simp [hq])).2.2] at he
          simp only [List.mem_append, List.mem_singleton] at he
          rcases he with (he | he) | he
          · split_ifs at he
            · rw [List.mem_singleton] at he; cases he
            · cases he
          · cases he
          · split_ifs at he
            · cases he
            · rw [List.mem_singleton] at he; cases he
        | some link =>
          rw [(Register_untracked_ok_link env (fun _ => queryResult) aURI link self h
            (by simp [hq])).2.2, List.mem_singleton] at he
          cases he
    | some links =>
      refine ⟨links, rfl, ?_⟩
      cases aLink with
      | none =>
        exfalso
        rw [(Register_tracked_null env (fun _ => queryResult) aURI self links h).2.2] at he
        simp only [List.mem_append] at he
        rcases he with (he | he) | he
        · split_ifs at he
          · rw [List.mem_singleton] at he; cases he
          · cases he
        · split_ifs at he
          · rw [List.mem_singleton] at he; cases he
          · cases he
        · split_ifs at he
          · cases he
          · rw [List.mem_singleton] at he; cases he
      | some link =>
        rw [(Register_tracked_link env (fun _ => queryResult) aURI link self links h).2.2] at he
        simp only [List.mem_append] at he
        rcases he with (he | he) | he
        · split_ifs at he
          · rw [List.mem_singleton] at he; cases he
          · cases he
        · split_ifs at he
          · rw [List.mem_singleton] at he; cases he
          · cases he
        · split_ifs at he with hk
          · exact hk
          · cases he
  | Unregister aURI aLink =>
    exfalso
    have he : Effect.Dispatch t r ∈ (UnregisterVisitedCallback aURI aLink self).2 := hr
    cases h : self.mTrackedURIs aURI with
    | none =>
      rw [Unregister_untracked aURI aLink self h, List.mem_singleton] at he
      cases he
    | some links =>
      by_cases hl : aLink ∈ links.mLinks
      · by_cases hlast : links.mLinks.erase aLink = []
        · rw [Unregister_last aURI aLink self links h hl hlast, List.mem_singleton] at he
          cases he
        · rw [Unregister_not_last aURI aLink self links h hl hlast] at he
          cases he
      · rw [Unregister_unknown_link aURI aLink self links h hl, List.mem_singleton] at he
        cases he
  | NotifyVisited aURI =>
    left
    cases aURI with
    | none => cases hr
    | some uri =>
      have hu : r.aURI = uri := NotifyVisited_effects env uri self _ hr
      rw [hu]
  | Deliver aURI aDoc =>
    exfalso
    obtain ⟨l, hl⟩ := NotifyVisitedForDocument_effects env aURI aDoc self _ hr
    cases hl

theorem run_cons (env : Env) (self : State) (c : Call) (cs : List Call) :
    run env self (c :: cs) =
      ((run env (step env self c).1 cs).1, (step env self c).2 ++ (run env (step env self c).1 cs).2) :=
  rfl

/-- Along a sequence of calls in which only dispatched runnables are run, a runnable is
dispatched, and a runnable is run, only for a URI for which `NotifyVisited` has been
called, `hist` being calls made before the sequence. -/
theorem scheduled_after_notify (env : Env) :
    ∀ (pre : List Call) (self : State) (pending : List Runnable) (hist : List Call),
      (∀ u links, self.mTrackedURIs u = some links → links.mKnownVisited = true →
        Call.NotifyVisited (some u) ∈ hist) →
      (∀ r ∈ pending, Call.NotifyVisited (some r.aURI) ∈ hist) →
      ∀ (c : Call) (post : List Call),
        deliversOnlyScheduled env self pending (pre ++ c :: post) = true →
        (∀ r ∈ scheduled (step env (run env self pre).1 c).2,
          Call.NotifyVisited (some r.aURI) ∈ hist ++ pre ++ [c]) ∧
        (∀ u d, c = Call.Deliver u d → Call.NotifyVisited (some u) ∈ hist ++ pre) := by
  intro pre
  induction pre with
  | nil =>
    intro self pending hist hK hP c post hw
    refine ⟨?_, ?_⟩
    · intro r hr
      rcases scheduled_origin env self c r hr with hc | ⟨links, hl, hk⟩
      · simp [hc]
      · have := hK _ links hl hk
        simp [this]
    · intro u d hc
      subst hc
      simp only [List.nil_append, deliversOnlyScheduled, Bool.and_eq_true,
        decide_eq_true_eq] at hw
      simpa using hP _ hw.1
  | cons c0 pre ih =>
    intro self pending hist hK hP c post hw
    have hK' : ∀ u links, (step env self c0).1.mTrackedURIs u = some links →
        links.mKnownVisited = true → Call.NotifyVisited (some u) ∈ hist ++ [c0] := by
      intro u links hl hk
      rcases known_origin env self c0 u links hl hk with hc | ⟨links0, hl0, hk0⟩
      · simp [hc]
      · have := hK u links0 hl0 hk0
        simp [this]
    have hsched : ∀ r ∈ scheduled (step env self c0).2,
        Call.NotifyVisited (some r.aURI) ∈ hist ++ [c0] := by
      intro r hr
      rcases scheduled_origin env self c0 r hr with hc | ⟨links, hl, hk⟩
      · simp [hc]
      · have := hK _ links hl hk
        simp [this]
    have key : ∃ pending', (∀ r ∈ pending', Call.NotifyVisited (some r.aURI) ∈ hist ++ [c0]) ∧
        deliversOnlyScheduled env (step env self c0).1 pending' (pre ++ c :: post) = true := by
      cases c0 with
      | Deliver aURI aDoc =>
        simp only [List.cons_append, deliversOnlyScheduled, Bool.and_eq_true] at hw
        refine ⟨_, ?_, hw.2⟩
        intro r hr
        have := hP r (List.mem_of_mem_erase hr)
        simp [this]
      | Register aURI aLink queryResult =>
        simp only [List.cons_append, deliversOnlyScheduled] at hw
        refine ⟨_, ?_, hw⟩
        intro r hr
        rcases List.mem_append.mp hr with h1 | h1
        · have := hP r h1
          simp [this]
        · exact hsched r h1
      | Unregister aURI aLink =>
        simp only [List.cons_append, deliversOnlyScheduled] at hw
        refine ⟨_, ?_, hw⟩
        intro r hr
        rcases List.mem_append.mp hr with h1 | h1
        · have := hP r h1
          simp [this]
        · exact hsched r h1
      | NotifyVisited aURI =>
        simp only [List.cons_append, deliversOnlyScheduled] at hw
        refine ⟨_, ?_, hw⟩
        intro r hr
        rcases List.mem_append.mp hr with h1 | h1
        · have := hP r h1
          simp [this]
        · exact hsched r h1
    obtain ⟨pending', hP', hw'⟩ := key
    have := ih (step env self c0).1 pending' (hist ++ [c0]) hK' hP' c post hw'
    rw [run_cons]
    simpa [List.append_assoc] using this

/-- C19. In every sequence of calls from the empty table in which a runnable is run only
after a call of the sequence dispatched it, a runnable for a URI is dispatched only by
`NotifyVisited` for that URI or after it, and so a runnable for a URI is run, and a link
is marked by it, only after `NotifyVisited` has been called for that URI. Here the
sequence is `pre`, then the call `c`, then `post`. -/
theorem C19_marked_only_after_notify (env : Env) (pre post : List Call) (c : Call)
    (h : deliversOnlyScheduled env State.init [] (pre ++ c :: post) = true) :
    (∀ r ∈ scheduled (step env (run env State.init pre).1 c).2,
        Call.NotifyVisited (some r.aURI) ∈ pre ++ [c]) ∧
      (∀ u d, c = Call.Deliver u d → Call.NotifyVisited (some u) ∈ pre) ∧
      (∀ l, l ∈ marked (step env (run env State.init pre).1 c).2 →
        ∃ u d, c = Call.Deliver u d ∧ Call.NotifyVisited (some u) ∈ pre) := by
  have hmain := scheduled_after_notify env pre State.init [] []
    (by intro u links hl; simp [State.init, Table.empty] at hl)
    (by intro r hr; cases hr) c post h
  simp only [List.nil_append] at hmain
  refine ⟨hmain.1, hmain.2, ?_⟩
  intro l hl
  cases hd : c.isDeliver with
  | false =>
    exfalso
    obtain ⟨u, _, hu⟩ := entryPoint_effects env _ c hd _ ((mem_marked _ l).mp hl)
    exact hu
  | true =>
    cases c with
    | Deliver u d => exact ⟨u, d, rfl, hmain.2 u d rfl⟩
    | _ => cases hd

/-- C19 at the sequence in which link `1` is registered for URI `7`, the URI is reported
visited, and the runnable dispatched for document `1` is run. -/
theorem C19_marked_only_after_notify_witness :
    deliversOnlyScheduled sampleEnv State.init []
        ([Call.Register 7 (some 1) (Except.ok ()), Call.NotifyVisited (some 7)] ++
          Call.Deliver 7 (some 1) :: []) = true ∧
      Call.NotifyVisited (some 7) ∈
        [Call.Register 7 (some 1) (Except.ok ()), Call.NotifyVisited (some 7)] :=
  ⟨by decide,
    (C19_marked_only_after_notify sampleEnv
      [Call.Register 7 (some 1) (Except.ok ()), Call.NotifyVisited (some 7)] []
      (Call.Deliver 7 (some 1)) (by decide)).2.1 7 (some 1) rfl⟩

/-! ## C15: the Entry a runnable removes -/

/-- A runnable is dispatched only in a state, after the dispatching call, whose Entry
for the runnable's URI has `mKnownVisited = true`. -/
theorem scheduled_known (env : Env) (self : State) (c : Call) (r : Runnable)
    (hr : r ∈ scheduled (step env self c).2) :
    ∃ links, (step env self c).1.mTrackedURIs r.aURI = some links ∧
      links.mKnownVisited = true := by
  rcases scheduled_origin env self c r hr with hc | ⟨links, hl, hk⟩
  · rcases step_entry_notified env self r.aURI with ⟨hno, _⟩ | ⟨links, _, hs⟩
    · exfalso
      rw [hc, mem_scheduled] at hr
      obtain ⟨t, hr⟩ := hr
      have : (step env self (Call.NotifyVisited (some r.aURI))).2 = [] := by
        show (NotifyVisited env (some r.aURI) self).2 = []
        rw [NotifyVisited_untracked env r.aURI self hno]
      rw [this] at hr
      cases hr
    · rw [hc]
      exact ⟨_, hs, rfl⟩
  · cases hn : c.notifies r.aURI with
    | true =>
      rw [(Call.notifies_iff r.aURI c).mp hn]
      rcases step_entry_notified env self r.aURI with ⟨hno, _⟩ | ⟨links0, _, hs⟩
      · rw [hno] at hl; cases hl
      · exact ⟨_, hs, rfl⟩
    | false =>
      have hd : c.isDeliver = false := by
        cases c with
        | Deliver aURI aDoc =>
          exfalso
          rw [mem_scheduled] at hr
          obtain ⟨t, hr⟩ := hr
          obtain ⟨l, hl'⟩ := NotifyVisitedForDocument_effects env aURI aDoc self _ hr
          cases hl'
        | _ => rfl
      rcases step_entry_not_notified env self c r.aURI hn with
        hs | hs | ⟨hno, _⟩ | ⟨links0, obs, hl0, hs⟩
      · exact ⟨links, by rw [hs]; exact hl, hk⟩
      · exfalso
        cases c with
        | Register aURI aLink queryResult =>
          rw [mem_scheduled] at hr
          obtain ⟨t, hr⟩ := hr
          have hu : r.aURI = aURI := Register_effects env _ aURI aLink self _ hr
          rw [hu, step_Register_state] at hs
          rw [hu] at hl
          exact (Register_tracked_started env (fun _ => queryResult) aURI aLink self
            (by rw [hl]; simp)).2 hs
        | Unregister aURI aLink =>
          rcases scheduled_origin env self (Call.Unregister aURI aLink) r hr with
            hc | ⟨_, _, _⟩
          · cases hc
          · rw [mem_scheduled] at hr
            obtain ⟨t, hr⟩ := hr
            have he : Effect.Dispatch t r ∈ (UnregisterVisitedCallback aURI aLink self).2 := hr
            cases h : self.mTrackedURIs aURI with
            | none =>
              rw [Unregister_untracked aURI aLink self h, List.mem_singleton] at he
              cases he
            | some links1 =>
              by_cases hl1 : aLink ∈ links1.mLinks
              · by_cases hlast : links1.mLinks.erase aLink = []
                · rw [Unregister_last aURI aLink self links1 h hl1 hlast,
                    List.mem_singleton] at he
                  cases he
                · rw [Unregister_not_last aURI aLink self links1 h hl1 hlast] at he
                  cases he
              · rw [Unregister_unknown_link aURI aLink self links1 h hl1,
                  List.mem_singleton] at he
                cases he
        | NotifyVisited aURI =>
          cases aURI with
          | none =>
            rw [mem_scheduled] at hr
            obtain ⟨t, hr⟩ := hr
            cases hr
          | some uri =>
            rw [mem_scheduled] at hr
            obtain ⟨t, hr⟩ := hr
            have hu : r.aURI = uri := NotifyVisited_effects env uri self _ hr
            rw [hu] at hn
            simp [Call.notifies] at hn
        | Deliver aURI aDoc => cases hd
      · rw [hno] at hl; cases hl
      · rw [hl0] at hl
        cases hl
        exact ⟨_, hs, hk⟩

/-- While a URI keeps its Entry along a sequence of calls, `mKnownVisited = true` is
kept. -/
theorem known_persists_run (env : Env) (u : URI) :
    ∀ (cs : List Call) (self : State) (links : ObservingLinks),
      self.mTrackedURIs u = some links → links.mKnownVisited = true →
      trackedThroughout env u self cs = true →
      ∃ links', (run env self cs).1.mTrackedURIs u = some links' ∧
        links'.mKnownVisited = true := by
  intro cs
  induction cs with
  | nil => intro self links h hk _; exact ⟨links, h, hk⟩
  | cons c cs ih =>
    intro self links h hk ht
    simp only [trackedThroughout, Bool.and_eq_true] at ht
    have hsome : ((step env self c).1.mTrackedURIs u).isSome = true := by
      cases cs with
      | nil => simpa [trackedThroughout] using ht.2
      | cons c' cs' =>
        have := ht.2
        simp only [trackedThroughout, Bool.and_eq_true] at this
        exact this.1
    obtain ⟨links1, h1⟩ := Option.isSome_iff_exists.mp hsome
    have hk1 := known_persists env self c u links links1 h hk h1
    rw [run_cons]
    exact ih (step env self c).1 links1 h1 hk1 ht.2

/-- C15, as stated, fails: after `staleCalls` the runnable for URI `7` and document `1`
that `NotifyVisited` dispatched is still to run, the Entry of URI `7` is a new one that
holds link `3` with `mKnownVisited = false`, and running the runnable marks link `3` and
removes that Entry, with no cancellation requested. -/
theorem C15_stale_runnable_counterexample :
    deliversOnlyScheduled sampleEnv State.init [] (staleCalls ++ [Call.Deliver 7 (some 1)])
        = true ∧
      (run sampleEnv State.init staleCalls).1.mTrackedURIs 7 =
        some { mLinks := [3], mKnownVisited := false } ∧
      (step sampleEnv (run sampleEnv State.init staleCalls).1
        (Call.Deliver 7 (some 1))).1.mTrackedURIs 7 = none ∧
      (step sampleEnv (run sampleEnv State.init staleCalls).1 (Call.Deliver 7 (some 1))).2 =
        [Effect.SetLinkStateVisited 3] := by
  decide

/-- C15, amended. The runnable body requests no lookup cancellation. A runnable for a
URI is dispatched only when the Entry of that URI has `mKnownVisited = true`, and the
flag stays true as long as the URI keeps its Entry; so when the URI has kept its Entry
from the dispatch of the runnable (by call `c` in state `self`) through the calls `cs`
made before the runnable is run, the Entry that the runnable works on, and removes when
it empties it, has `mKnownVisited = true`. -/
theorem C15_entry_kept_since_dispatch (env : Env) (self : State) (c : Call) (cs : List Call)
    (r : Runnable) (hr : r ∈ scheduled (step env self c).2)
    (hkept : trackedThroughout env r.aURI (step env self c).1 cs = true) :
    cancelled (NotifyVisitedForDocument env r.aURI r.aDoc
        (run env (step env self c).1 cs).1).2 = [] ∧
      (∃ links, (step env self c).1.mTrackedURIs r.aURI = some links ∧
        links.mKnownVisited = true) ∧
      (∃ links, (run env (step env self c).1 cs).1.mTrackedURIs r.aURI = some links ∧
        links.mKnownVisited = true) := by
  obtain ⟨links, hl, hk⟩ := scheduled_known env self c r hr
  refine ⟨?_, ⟨links, hl, hk⟩, known_persists_run env r.aURI cs _ links hl hk hkept⟩
  rw [List.eq_nil_iff_forall_not_mem]
  intro u hu
  rw [mem_cancelled] at hu
  obtain ⟨l, hl'⟩ := NotifyVisitedForDocument_effects env _ _ _ _ hu
  cases hl'

/-- C15, amended, at the runnable for document `1` that `NotifyVisited(7)` dispatches on
the sample state, link `6` being registered for URI `7` before the runnable is run. -/
theorem C15_entry_kept_since_dispatch_witness :
    ({ aURI := 7, aDoc := some 1 } : Runnable) ∈
        scheduled (step sampleEnv sampleState (Call.NotifyVisited (some 7))).2 ∧
      trackedThroughout sampleEnv 7 (step sampleEnv sampleState (Call.NotifyVisited (some 7))).1
        [Call.Register 7 (some 6) (Except.ok ())] = true ∧
      ∃ links, (run sampleEnv (step sampleEnv sampleState (Call.NotifyVisited (some 7))).1
          [Call.Register 7 (some 6) (Except.ok ())]).1.mTrackedURIs 7 = some links ∧
        links.mKnownVisited = true :=
  ⟨by decide, by decide,
    (C15_entry_kept_since_dispatch sampleEnv sampleState (Call.NotifyVisited (some 7))
      [Call.Register 7 (some 6) (Except.ok ())] { aURI := 7, aDoc := some 1 }
      (by decide) (by decide)).2.2⟩

end BaseHistory
